import Mathlib

/-!
Verification of the CMAD K_FACTURE correction engine (`src/app.py`,
class `CMADProcessor`) against its natural-language specification.

The Python tree of `xml.etree.ElementTree` elements is embedded as the
inductive type `Elem` (tag, optional text, children).  Python floats are
embedded as exact scaled decimals (`PyNum`, value `num / 10^scale`):
every numeric string handled by the program denotes an exact decimal,
`parse_decimal` parses such decimals exactly, and `format_decimal`
renders a fixed number of decimal digits; the binary64 rounding of
CPython is immaterial for the properties below and is modelled by exact
decimal arithmetic (rounding to 4 decimals is modelled as round half up).
In-place mutation of the element tree is rendered functionally: every
mutation of the source replaces only `text` fields, so each mutating
method is translated to a function returning the rewritten tree, and the
document-level loop over `root.findall('.//CONTRAT')` becomes a preorder
rewrite of every CONTRAT-tagged descendant.
-/

/-- An exact decimal number `num / 10 ^ scale`, the embedding of the Python
float values flowing through `CMADProcessor` (all of which originate from
decimal strings). -/
structure PyNum where
  num : Int
  scale : Nat
deriving DecidableEq, Repr

/-- The rational value of a `PyNum`. -/
def PyNum.toQ (a : PyNum) : ℚ := (a.num : ℚ) / (10 : ℚ) ^ a.scale

/-- Numeric comparison `a < b` on Python floats (cross multiplication,
kernel-computable). -/
def PyNum.blt (a b : PyNum) : Bool :=
  a.num * (10 : Int) ^ b.scale < b.num * (10 : Int) ^ a.scale

/-- Numeric equality `a == b` on Python floats. -/
def PyNum.beq (a b : PyNum) : Bool :=
  a.num * (10 : Int) ^ b.scale == b.num * (10 : Int) ^ a.scale

/-- Python float multiplication. -/
def PyNum.mul (a b : PyNum) : PyNum := ⟨a.num * b.num, a.scale + b.scale⟩

/-- The float `0.0`. -/
def pyZero : PyNum := ⟨0, 0⟩

/-- The whitespace characters stripped by Python's `str.strip()`
(restricted to the ASCII whitespace actually occurring in CMAD files). -/
def pyWs (c : Char) : Bool :=
  c == ' ' || c == '\t' || c == '\n' || c == '\r' || c == '\x0b' || c == '\x0c'

/-- `str.strip()` on a character list: drop leading and trailing whitespace. -/
def pyStrip (cs : List Char) : List Char :=
  ((cs.dropWhile pyWs).reverse.dropWhile pyWs).reverse

/-- `str.strip()` on a `String`. -/
def trimStr (s : String) : String := (pyStrip s.toList).asString

/-- `pat` is a leading segment of the second list (char-level model of
`str.startswith`). -/
def leadsWith : List Char → List Char → Bool
  | [], _ => true
  | _ :: _, [] => false
  | p :: ps, c :: cs => p == c && leadsWith ps cs

/-- `s.startswith(pat)`. -/
def strStarts (s pat : String) : Bool := leadsWith pat.toList s.toList

/-- Numeric value of a list of decimal digit characters. -/
def digitsToNat (cs : List Char) : Nat :=
  cs.foldl (fun a c => a * 10 + (c.toNat - '0'.toNat)) 0

/-- Model of CPython's `float(str)` restricted to plain decimal literals
(optional sign, integer digits, optional fractional part), which is the
fragment reachable from `parse_decimal` on CMAD numeric fields.  Exponent
forms, `inf`/`nan` and digit underscores are outside the modelled fragment
and are rejected.  `none` models a raised `ValueError`. -/
def pyFloat (cs : List Char) : Option PyNum :=
  let core : Int → List Char → Option PyNum := fun sg rest =>
    let ip := rest.takeWhile Char.isDigit
    let tail := rest.dropWhile Char.isDigit
    match tail with
    | [] => if ip.isEmpty then none else some ⟨sg * (digitsToNat ip : Int), 0⟩
    | '.' :: fr =>
        if fr.all Char.isDigit && (!ip.isEmpty || !fr.isEmpty) then
          some ⟨sg * (digitsToNat (ip ++ fr) : Int), fr.length⟩
        else none
    | _ => none
  match cs with
  | '+' :: rest => core 1 rest
  | '-' :: rest => core (-1) rest
  | _ => core 1 cs

/-- `str.split('.')` on a character list. -/
def splitDot : List Char → List (List Char)
  | [] => [[]]
  | '.' :: rest => [] :: splitDot rest
  | c :: rest =>
      match splitDot rest with
      | [] => [[c]]
      | p :: ps => (c :: p) :: ps

/-- `''.join(parts[:-1]) + '.' + parts[-1]` where `parts = value.split('.')`:
all dots except the last are treated as thousands separators
(`CMADProcessor.parse_decimal`, lines 115-118). -/
def joinDots (cs : List Char) : List Char :=
  let parts := splitDot cs
  parts.dropLast.flatten ++ ('.' :: parts.getLastD [])

/-- `CMADProcessor.parse_decimal` (src/app.py lines 90-124): robust decimal
parsing.  `none` models a `None` argument; falsy input returns 0, then the
value is stripped, commas become dots, spaces are removed, surplus dots are
treated as thousands separators, and a failed float conversion
(`ValueError`, modelled by `pyFloat` returning `none`) yields 0. -/
def parse_decimal (value : Option String) : PyNum :=
  match value with
  | none => pyZero
  | some s =>
    if s = "" then pyZero
    else
      let cs0 := pyStrip s.toList
      let cs1 := cs0.map (fun c => if c == ',' then '.' else c)
      let cs2 := cs1.filter (fun c => c != ' ')
      let cs3 := if cs2.count '.' > 1 then joinDots cs2 else cs2
      match pyFloat cs3 with
      | some q => q
      | none => pyZero

/-- Rounding of `f"{value:.{d}f}"` scaled by `10^d`, modelled as round half
up on the exact decimal: `⌊value * 10^d + 1/2⌋` computed with flooring
integer division (every value formatted by the program is exact at 4
decimals, so the tie-breaking convention is never exercised). -/
def pyRoundScaled (a : PyNum) (d : Nat) : Int :=
  Int.fdiv (2 * (a.num * (10 : Int) ^ d) + (10 : Int) ^ a.scale)
    (2 * (10 : Int) ^ a.scale)

/-- Left-pad a digit string with zeros to width `n`. -/
def padZeros (s : String) (n : Nat) : String :=
  (List.replicate (n - s.length) '0').asString ++ s

/-- `CMADProcessor.format_decimal` (src/app.py lines 126-148): fixed-point
rendering with `decimals` digits, decimal point replaced by a comma.  The
source defaults `decimals` to 4; call sites below pass 4 explicitly. -/
def format_decimal (value : PyNum) (decimals : Nat) : String :=
  let n := pyRoundScaled value decimals
  let a := n.natAbs
  let ip := a / 10 ^ decimals
  let fp := a % 10 ^ decimals
  (if n < 0 then "-" else "") ++ toString ip ++ "," ++ padZeros (toString fp) decimals

/-- An `xml.etree.ElementTree` element: tag, optional text, child list. -/
inductive Elem : Type where
  | mk (tag : String) (text : Option String) (children : List Elem)

/-- The tag of an element. -/
def Elem.tag : Elem → String
  | .mk t _ _ => t

/-- The text of an element (`None` or a string). -/
def Elem.text : Elem → Option String
  | .mk _ x _ => x

/-- The list of child elements. -/
def Elem.children : Elem → List Elem
  | .mk _ _ cs => cs

/-- A placeholder element, used as the default of positional lookups. -/
def Elem.nil : Elem := .mk "" none []

/-- A childless element carrying a text value. -/
def leaf (tag txt : String) : Elem := .mk tag (some txt) []

/-- `element.find(tag)`: the first direct child with the given tag. -/
def findChild : List Elem → String → Option Elem
  | [], _ => none
  | c :: cs, t => if c.tag = t then some c else findChild cs t

/-- The raw text of the first direct child with the given tag. -/
def childText (e : Elem) (t : String) : Option String :=
  (findChild e.children t).bind Elem.text

/-- `CMADProcessor.get_element_text` (src/app.py lines 172-191): the
stripped text of the first child with the given tag; the default when the
child is absent or its text is `None` or empty. -/
def get_element_text (element : Elem) (tag dflt : String) : String :=
  match findChild element.children tag with
  | some e =>
      match e.text with
      | some t => if t ≠ "" then trimStr t else dflt
      | none => dflt
  | none => dflt

/-- `CMADProcessor.set_element_text` on a child list (src/app.py lines
193-213): replace the text of the first child with the given tag; the
boolean reports whether such a child was found. -/
def set_element_text_list : List Elem → String → String → List Elem × Bool
  | [], _, _ => ([], false)
  | c :: cs, t, v =>
      if c.tag = t then (Elem.mk c.tag (some v) c.children :: cs, true)
      else
        let r := set_element_text_list cs t v
        (c :: r.1, r.2)

/-- `CMADProcessor.set_element_text` rendered on the parent element. -/
def set_element_text (e : Elem) (tag v : String) : Elem × Bool :=
  let r := set_element_text_list e.children tag v
  (Elem.mk e.tag e.text r.1, r.2)

/-- `CMADProcessor.find_elements_by_pattern` (src/app.py lines 150-170):
the direct children whose (truthy) tag starts with the pattern. -/
def find_elements_by_pattern (parent : Elem) (pattern : String) : List Elem :=
  parent.children.filter (fun e => e.tag ≠ "" && strStarts e.tag pattern)

/-- The first-seen order of the non-empty RUCODE values of the CONTDET_
children: the insertion order of the keys of the dict built by
`CMADProcessor.group_contdet_by_rucode` (src/app.py lines 215-244). -/
def contdet_rucodes (contrat : Elem) : List String :=
  (find_elements_by_pattern contrat "CONTDET_").foldl
    (fun acc c =>
      let r := get_element_text c "RUCODE" ""
      if r ≠ "" ∧ r ∉ acc then acc ++ [r] else acc) []

/-- The members of one rubric group: the CONTDET_ children whose RUCODE
equals `r`, in document order (the value lists of the dict built by
`CMADProcessor.group_contdet_by_rucode`). -/
def rucode_group (contrat : Elem) (r : String) : List Elem :=
  (find_elements_by_pattern contrat "CONTDET_").filter
    (fun c => get_element_text c "RUCODE" "" == r)

/-- The fold of `CMADProcessor.find_max_k_facture`'s loop (src/app.py lines
246-273), threading the running maximum value and its original string. -/
def find_max_go : List Elem → PyNum → String → PyNum × String
  | [], m, s => (m, s)
  | d :: ds, m, s =>
      let kt := get_element_text d "K_FACTURE" ""
      if kt ≠ "" then
        let kv := parse_decimal (some kt)
        if PyNum.blt m kv then find_max_go ds kv kt else find_max_go ds m s
      else find_max_go ds m s

/-- `CMADProcessor.find_max_k_facture`: the maximum K_FACTURE of a CONTDET
list, together with the original textual form of the maximum; starts from
`(0.0, "0")`. -/
def find_max_k_facture (contdet_list : List Elem) : PyNum × String :=
  find_max_go contdet_list pyZero "0"

/-- One record of the modifications list built by
`CMADProcessor.update_contdet_group` (src/app.py lines 309-318). -/
structure Modification where
  contdet : String
  libelle : String
  old_k : String
  new_k : String
  old_taux_facture : String
  new_taux_facture : String
  taux_paye : String
deriving DecidableEq

/-- The loop body of `CMADProcessor.update_contdet_group` (src/app.py lines
289-318) on one CONTDET: when both K_FACTURE and TAUX_PAYE are non-empty
and the K_FACTURE child exists, overwrite K_FACTURE with the propagated
string, recompute and overwrite TAUX_FACTURE, and emit one modification
record (`nkv` is `new_k_value = parse_decimal(new_k_facture)`, computed
once per group in the source). -/
def update_one (nk : String) (nkv : PyNum) (d : Elem) : Elem × List Modification :=
  let old_k := get_element_text d "K_FACTURE" ""
  let taux_paye_text := get_element_text d "TAUX_PAYE" ""
  let old_taux_facture := get_element_text d "TAUX_FACTURE" ""
  let libelle := get_element_text d "LIBELLE" d.tag
  if old_k ≠ "" ∧ taux_paye_text ≠ "" then
    let r1 := set_element_text d "K_FACTURE" nk
    if r1.2 then
      let taux_paye_value := parse_decimal (some taux_paye_text)
      let new_taux_facture_str := format_decimal (PyNum.mul taux_paye_value nkv) 4
      let r2 := set_element_text r1.1 "TAUX_FACTURE" new_taux_facture_str
      (r2.1, [⟨d.tag, libelle, old_k, nk, old_taux_facture, new_taux_facture_str,
              taux_paye_text⟩])
    else (r1.1, [])
  else (d, [])

/-- The loop of `CMADProcessor.update_contdet_group` over the group. -/
def update_group_go (nk : String) (nkv : PyNum) :
    List Elem → List Elem × List Modification
  | [] => ([], [])
  | d :: ds =>
      let r := update_one nk nkv d
      let rest := update_group_go nk nkv ds
      (r.1 :: rest.1, r.2 ++ rest.2)

/-- `CMADProcessor.update_contdet_group` (src/app.py lines 275-324):
rewrite every member of a rubric group with the propagated K_FACTURE
string and return the rewritten members with the modification records. -/
def update_contdet_group (contdet_list : List Elem) (new_k_facture : String) :
    List Elem × List Modification :=
  update_group_go new_k_facture (parse_decimal (some new_k_facture)) contdet_list

/-- The contract identifier (src/app.py lines 336-344): the first non-empty
text among CONO, NUM_INTERNE, CONO_TXT, NUMCLIENT, else the sentinel. -/
def contrat_id_of (contrat : Elem) : String :=
  let c1 := get_element_text contrat "CONO" ""
  if c1 ≠ "" then c1
  else
    let c2 := get_element_text contrat "NUM_INTERNE" ""
    if c2 ≠ "" then c2
    else
      let c3 := get_element_text contrat "CONO_TXT" ""
      if c3 ≠ "" then c3
      else
        let c4 := get_element_text contrat "NUMCLIENT" ""
        if c4 ≠ "" then c4 else "CONTRAT_SANS_ID"

/-- The `all_max_k_values` list of `CMADProcessor.process_contrat`
(src/app.py lines 360-367): per rubric group with more than one member, the
group maximum when it is positive, in first-seen rubric order. -/
def all_max_k_values (contrat : Elem) : List PyNum :=
  (contdet_rucodes contrat).filterMap (fun r =>
    let g := rucode_group contrat r
    if 1 < g.length then
      let m := (find_max_k_facture g).1
      if PyNum.blt pyZero m then some m else none
    else none)

/-- The `rucode_modifications` dict of `CMADProcessor.process_contrat`
(src/app.py lines 362-379) as an insertion-ordered association list:
`(rucode, max_k string, detail records)` for each multi-member positive-max
group whose update produced at least one real change (`old_k ≠ new_k`). -/
def rucode_modifications_of (contrat : Elem) :
    List (String × String × List Modification) :=
  (contdet_rucodes contrat).filterMap (fun r =>
    let g := rucode_group contrat r
    if 1 < g.length then
      let ms := find_max_k_facture g
      if PyNum.blt pyZero ms.1 then
        let dets := (update_contdet_group g ms.2).2
        if dets.any (fun m => m.old_k != m.new_k) then some (r, ms.2, dets)
        else none
      else none
    else none)

/-- The effect of the group-update loop of `CMADProcessor.process_contrat`
on the contract's children: every CONTDET_ child belonging to a rubric
group with more than one member and a positive maximum is rewritten by
`update_one` with the group's maximum string; every other child is left
alone.  (The in-place mutation of the source touches exactly these
children; grouping is read off the pre-update tree, which is equivalent
because the updates never change a tag or a RUCODE text.) -/
def updated_children (contrat : Elem) : List Elem :=
  contrat.children.map (fun c =>
    if c.tag ≠ "" ∧ strStarts c.tag "CONTDET_" then
      let r := get_element_text c "RUCODE" ""
      if r ≠ "" then
        let g := rucode_group contrat r
        if 1 < g.length then
          let ms := find_max_k_facture g
          if PyNum.blt pyZero ms.1 then
            (update_one ms.2 (parse_decimal (some ms.2)) c).1
          else c
        else c
      else c
    else c)

/-- Python's `max` over a non-empty float list (first element, replaced
whenever a later element is strictly greater). -/
def global_max_of (m : PyNum) (ms : List PyNum) : PyNum :=
  ms.foldl (fun acc x => if PyNum.blt acc x then x else acc) m

/-- The per-contract result dict of `CMADProcessor.process_contrat`. -/
structure ContratMods where
  contrat_id : String
  rucode_modifications : List (String × String × List Modification)
  k_contrat_updated : Option (String × String)

/-- `CMADProcessor.process_contrat` (src/app.py lines 326-404): group the
CONTDET_ children by RUCODE, propagate each multi-member group's positive
maximum K_FACTURE into its members, then — when some group qualified —
raise the contract-level K_FACTURE to the global maximum's string provided
the contract value is strictly smaller and some recorded (really-changed)
group attains the global maximum; the search loop with its `break` is the
first such recorded group. -/
def process_contrat (contrat : Elem) : Elem × ContratMods :=
  let cid := contrat_id_of contrat
  let rmods := rucode_modifications_of contrat
  let nc := updated_children contrat
  match all_max_k_values contrat with
  | [] => (Elem.mk contrat.tag contrat.text nc, ⟨cid, rmods, none⟩)
  | m :: ms =>
    let gmax := global_max_of m ms
    let c1 := Elem.mk contrat.tag contrat.text nc
    let kct := get_element_text c1 "K_FACTURE" ""
    if kct ≠ "" ∧ PyNum.blt (parse_decimal (some kct)) gmax then
      match rmods.find? (fun x => PyNum.beq (parse_decimal (some x.2.1)) gmax) with
      | some x =>
          let r := set_element_text_list nc "K_FACTURE" x.2.1
          (Elem.mk contrat.tag contrat.text r.1,
           ⟨cid, rmods, if r.2 then some (kct, x.2.1) else none⟩)
      | none => (c1, ⟨cid, rmods, none⟩)
    else (c1, ⟨cid, rmods, none⟩)


/-- Number of nodes of a forest (the tree-shape measure: text rewrites
preserve it). -/
def numNodesL : List Elem → Nat
  | [] => 0
  | .mk _ _ cs :: rest => 1 + numNodesL cs + numNodesL rest

/-- Number of nodes of one element. -/
def numNodes : Elem → Nat
  | .mk _ _ cs => 1 + numNodesL cs

/-- Node count of a cons cell. -/
def numNodesL_cons : ∀ (d : Elem) (rest : List Elem),
    numNodesL (d :: rest) = numNodes d + numNodesL rest := by
  intro d rest
  obtain ⟨t, x, cs⟩ := d
  simp only [numNodesL, numNodes]

/-- A child forest has fewer nodes than its element. -/
def numNodesL_children_lt : ∀ c : Elem, numNodesL c.children < numNodes c := by
  intro c
  obtain ⟨t, x, cs⟩ := c
  simp only [numNodes, Elem.children]
  omega

/-- `set_element_text_list` only rewrites a text, so it preserves the node
count. -/
def numNodesL_set : ∀ (cs : List Elem) (t v : String),
    numNodesL (set_element_text_list cs t v).1 = numNodesL cs := by
  intro cs t v
  induction cs with
  | nil => rfl
  | cons c rest ih =>
    obtain ⟨ct, cx, cc⟩ := c
    simp only [set_element_text_list]
    split
    · simp [numNodesL, Elem.tag, Elem.children]
    · simp only [numNodesL, ih]

/-- `update_one` only rewrites texts, so it preserves the node count. -/
def numNodes_update_one : ∀ (nk : String) (nkv : PyNum) (d : Elem),
    numNodes (update_one nk nkv d).1 = numNodes d := by
  intro nk nkv d
  obtain ⟨t, x, cs⟩ := d
  simp only [update_one, set_element_text]
  split
  · split
    · simp [numNodes, Elem.tag, Elem.text, Elem.children, numNodesL_set]
    · simp [numNodes, Elem.tag, Elem.text, Elem.children, numNodesL_set]
  · rfl

/-- A pointwise node-count-preserving map preserves the forest node
count. -/
def numNodesL_map : ∀ (F : Elem → Elem), (∀ d, numNodes (F d) = numNodes d) →
    ∀ l : List Elem, numNodesL (l.map F) = numNodesL l := by
  intro F h l
  induction l with
  | nil => rfl
  | cons d rest ih =>
    simp only [List.map_cons, numNodesL_cons, h, ih]

/-- `process_contrat` only rewrites texts of the contract's subtree, so it
preserves the node count of the child forest. -/
def numNodes_process_contrat : ∀ c : Elem,
    numNodesL (process_contrat c).1.children = numNodesL c.children := by
  intro c
  have hF : numNodesL (updated_children c) = numNodesL c.children := by
    unfold updated_children
    rw [numNodesL_map]
    intro d
    dsimp only
    repeat' split
    any_goals rfl
    exact numNodes_update_one _ _ _
  unfold process_contrat
  dsimp only
  split
  · simpa [Elem.children] using hF
  · split
    · split
      · simp only [Elem.children]
        rw [numNodesL_set]
        exact hF
      · simpa [Elem.children] using hF
    · simpa [Elem.children] using hF

/-- Termination helper: a rewritten contract's child forest is smaller than
the cons cell. -/
def dec_lemma_contrat : ∀ (c : Elem) (cs : List Elem),
    numNodesL (process_contrat c).1.children < numNodesL (c :: cs) := by
  intro c cs
  rw [numNodes_process_contrat, numNodesL_cons]
  have h := numNodesL_children_lt c
  omega

/-- Termination helper: a child forest is smaller than the cons cell. -/
def dec_lemma_child : ∀ (c : Elem) (cs : List Elem),
    numNodesL c.children < numNodesL (c :: cs) := by
  intro c cs
  rw [numNodesL_cons]
  have h := numNodesL_children_lt c
  omega

/-- Termination helper: a tail is smaller than the cons cell. -/
def dec_lemma_tail : ∀ (c : Elem) (cs : List Elem),
    numNodesL cs < numNodesL (c :: cs) := by
  intro c cs
  rw [numNodesL_cons]
  obtain ⟨t, x, ch⟩ := c
  simp only [numNodes]
  omega

/-- The document-level loop of `CMADProcessor.process` (src/app.py lines
442-477): rewrite every CONTRAT-tagged node of the forest in preorder
(the order of `root.findall('.//CONTRAT')`; the per-contract summaries are
kept exactly when they report a rubric modification or a contract-level
update, lines 465-467).  Mutations never change the tree shape, so the
preorder rewrite that descends into the rewritten children is exactly the
source's iteration over the pre-computed node list. -/
def process_document_list : List Elem → List Elem × List ContratMods
  | [] => ([], [])
  | c :: cs =>
    if c.tag = "CONTRAT" then
      let r := process_contrat c
      let kept := if r.2.rucode_modifications ≠ [] ∨ r.2.k_contrat_updated.isSome
                  then [r.2] else []
      let inner := process_document_list r.1.children
      let rest := process_document_list cs
      (Elem.mk r.1.tag r.1.text inner.1 :: rest.1, kept ++ inner.2 ++ rest.2)
    else
      let inner := process_document_list c.children
      let rest := process_document_list cs
      (Elem.mk c.tag c.text inner.1 :: rest.1, inner.2 ++ rest.2)
termination_by l => numNodesL l
decreasing_by
  · exact dec_lemma_contrat _ _
  · exact dec_lemma_tail _ _
  · exact dec_lemma_child _ _
  · exact dec_lemma_tail _ _

/-- `CMADProcessor.process` at tree level: the root itself is not matched
by `.//CONTRAT`, its descendants are rewritten in preorder; the result is
the corrected tree (the argument of `prettify_xml`) and the list of
per-contract change summaries (`all_modifications`). -/
def process_document (root : Elem) : Elem × List ContratMods :=
  let r := process_document_list root.children
  (Elem.mk root.tag root.text r.1, r.2)

/-- Decoding a byte with CPython's `iso-8859-1` codec, which is an alias of
the `latin_1` codec: every byte value 0x00..0xFF maps to the code point of
the same value, so the decode can never raise. -/
def decode_iso_8859_1 (bs : List (Fin 256)) : Option (List Char) :=
  some (bs.map (fun b => Char.ofNat b.val))

/-- One step of a UTF-8 decoder (simplified: continuation bytes are
checked, overlong forms are not; the branch is proved unreachable from
`_parse_xml`, so only its existence matters). -/
def utf8Step : List (Fin 256) → Option (Nat × List (Fin 256))
  | [] => none
  | b :: rest =>
      if b.val < 0x80 then some (b.val, rest)
      else if 0xc0 ≤ b.val ∧ b.val < 0xe0 then
        match rest with
        | b2 :: rest2 =>
            if 0x80 ≤ b2.val ∧ b2.val < 0xc0 then
              some ((b.val - 0xc0) * 64 + (b2.val - 0x80), rest2)
            else none
        | _ => none
      else if 0xe0 ≤ b.val ∧ b.val < 0xf0 then
        match rest with
        | b2 :: b3 :: rest2 =>
            if (0x80 ≤ b2.val ∧ b2.val < 0xc0) ∧ (0x80 ≤ b3.val ∧ b3.val < 0xc0) then
              some (((b.val - 0xe0) * 64 + (b2.val - 0x80)) * 64 + (b3.val - 0x80), rest2)
            else none
        | _ => none
      else none

/-- Decoding with the `utf-8` codec (simplified and fuel-bounded; the
branch is unreachable from `_parse_xml`, since the preceding `iso-8859-1`
attempt never fails). -/
def decode_utf8_go : Nat → List (Fin 256) → Option (List Char)
  | _, [] => some []
  | 0, _ :: _ => none
  | fuel + 1, bs =>
      match utf8Step bs with
      | none => none
      | some (cp, rest) =>
          match decode_utf8_go fuel rest with
          | some cs => if cp < 0xd800 then some (Char.ofNat cp :: cs) else none
          | none => none

/-- Decoding with the `utf-8` codec (unreachable from `_parse_xml`). -/
def decode_utf8 (bs : List (Fin 256)) : Option (List Char) :=
  decode_utf8_go bs.length bs

/-- The encoding-selection chain of `CMADProcessor._parse_xml` on byte
input (src/app.py lines 42-52): try `iso-8859-1`, then `utf-8`, then
`latin-1` (itself total); the result is the decoded text and the value of
`self.encoding` after decoding. -/
def decode_bytes (bs : List (Fin 256)) : List Char × String :=
  match decode_iso_8859_1 bs with
  | some cs => (cs, "iso-8859-1")
  | none =>
      match decode_utf8 bs with
      | some cs => (cs, "utf-8")
      | none => (bs.map (fun b => Char.ofNat b.val), "latin-1")

/-- The XML declaration emitted by `CMADProcessor.prettify_xml`
(src/app.py line 431): it names `self.encoding`. -/
def xml_declaration (encoding : String) : String :=
  "<?xml version=\"1.0\" encoding=\"" ++ encoding ++ "\"?>\n"

/-- Lookahead of the repair regex `&(?!amp;|lt;|gt;|quot;|apos;)`: is the
remainder a recognized entity body? -/
def entityFollows (cs : List Char) : Bool :=
  leadsWith "amp;".toList cs || leadsWith "lt;".toList cs ||
  leadsWith "gt;".toList cs || leadsWith "quot;".toList cs ||
  leadsWith "apos;".toList cs

/-- `re.sub(r'&(?!amp;|lt;|gt;|quot;|apos;)', '&amp;', ·)`
(src/app.py line 74): escape each bare ampersand not starting a
recognized entity reference. -/
def sub_amp : List Char → List Char
  | [] => []
  | '&' :: rest =>
      if entityFollows rest then '&' :: sub_amp rest
      else '&' :: 'a' :: 'm' :: 'p' :: ';' :: sub_amp rest
  | c :: rest => c :: sub_amp rest

/-- `re.sub(r'<(?=\s)', '&lt;', ·)` (src/app.py line 75): escape each `<`
immediately followed by whitespace (non-consuming lookahead). -/
def sub_lt : List Char → List Char
  | [] => []
  | '<' :: rest =>
      match rest with
      | c :: _ =>
          if pyWs c then '&' :: 'l' :: 't' :: ';' :: sub_lt rest
          else '<' :: sub_lt rest
      | [] => ['<']
  | c :: rest => c :: sub_lt rest

/-- `re.sub(r'(?<!\s)>', '&gt;', ·)` (src/app.py line 76): escape each `>`
not preceded by whitespace; `prev` is the original preceding character
(`none` at the start of the string, where the negative lookbehind
succeeds). -/
def sub_gt_go (prev : Option Char) : List Char → List Char
  | [] => []
  | '>' :: rest =>
      if (match prev with | some p => !pyWs p | none => true) then
        '&' :: 'g' :: 't' :: ';' :: sub_gt_go (some '>') rest
      else '>' :: sub_gt_go (some '>') rest
  | c :: rest => c :: sub_gt_go (some c) rest

/-- `CMADProcessor._try_repair_xml`'s cleaning pass (src/app.py lines
66-88): the three substitutions applied in order. -/
def repair_xml (s : String) : String :=
  (sub_gt_go none (sub_lt (sub_amp s.toList))).asString

/-- The diagnostic appended on a successful repair (src/app.py line 85). -/
def repairDiagnostic : String :=
  "XML réparé avec succès (caractères non échappés corrigés)"

/-- The control flow of `CMADProcessor._parse_xml` around an abstract
structural parser `P` (src/app.py lines 38-64 and 66-88): parse; on a
parse error apply the single bounded repair pass and parse once more; a
successful repair is reported through the diagnostics list; a failed
retry raises `ValueError` naming the original parse error.  The guard
`if not self.root` (line 61) tests the repaired root with Element
truthiness — an `xml.etree` Element is falsy when it has no children —
so a retry that parses but yields a childless root still raises the
`ValueError` naming the original failure, and the diagnostic appended by
`_try_repair_xml` dies with the raising constructor.  `P` stands for
`defusedxml.ElementTree.fromstring`; `Except.error e` models a raised
`xml.etree.ElementTree.ParseError` with message `e`. -/
def parse_with_repair (P : String → Except String Elem) (s : String) :
    Except String (Elem × List String) :=
  match P s with
  | .ok t => .ok (t, [])
  | .error e =>
      match P (repair_xml s) with
      | .ok t =>
          if t.children.isEmpty then
            .error ("Impossible de parser le XML: " ++ e)
          else .ok (t, [repairDiagnostic])
      | .error _ => .error ("Impossible de parser le XML: " ++ e)

/-- A structural parser agreeing with `defusedxml.ElementTree.fromstring`
on the two strings of the C8 counterexample: the raw input holds a bare
ampersand, so it is rejected as not well-formed, and the repaired string
parses to the element `A` with text `x & y` and no children (both angle
brackets of each tag survive the repair because the `<` is followed by a
letter or slash and the `>` is preceded by whitespace). -/
def exRepairParser (s : String) : Except String Elem :=
  if s = "<A >x & y</A >" then
    .error "not well-formed (invalid token)"
  else if s = "<A >x &amp; y</A >" then
    .ok (Elem.mk "A" (some "x & y") [])
  else .error "unexpected input"

/-- Detail line `CONTDET_1` of the end-to-end scenario: rubric 1100, paid
rate `12,25000`, coefficient `2,01`, billed rate `24,6225`. -/
def exLine1 : Elem :=
  .mk "CONTDET_1" none
    [leaf "RUCODE" "1100", leaf "TAUX_PAYE" "12,25000",
     leaf "K_FACTURE" "2,01", leaf "TAUX_FACTURE" "24,6225"]

/-- Detail line `CONTDET_2` of the end-to-end scenario: rubric 1100, paid
rate `12,25000`, coefficient `1,95`, billed rate `23,8875`. -/
def exLine2 : Elem :=
  .mk "CONTDET_2" none
    [leaf "RUCODE" "1100", leaf "TAUX_PAYE" "12,25000",
     leaf "K_FACTURE" "1,95", leaf "TAUX_FACTURE" "23,8875"]

/-- A copy of `CONTDET_2` already carrying the maximum coefficient. -/
def exLine2eq : Elem :=
  .mk "CONTDET_2" none
    [leaf "RUCODE" "1100", leaf "TAUX_PAYE" "12,25000",
     leaf "K_FACTURE" "2,01", leaf "TAUX_FACTURE" "24,6225"]

/-- The end-to-end contract: contract-level coefficient `1,00`, detail
lines `2,01` and `1,95` under rubric 1100. -/
def exContrat : Elem :=
  .mk "CONTRAT" none [leaf "K_FACTURE" "1,00", exLine1, exLine2]

/-- A contract whose rubric group already sits at its maximum everywhere,
while the contract-level coefficient `1,00` is strictly below it. -/
def exContratEq : Elem :=
  .mk "CONTRAT" none [leaf "K_FACTURE" "1,00", exLine1, exLine2eq]

/-- A detail line with a coefficient but no paid rate. -/
def exLineNoTP : Elem :=
  .mk "CONTDET_2" none [leaf "RUCODE" "1100", leaf "K_FACTURE" "1,5"]

/-- A contract whose rubric group mixes a full line (`2,0`) with a line
lacking TAUX_PAYE (`1,5`). -/
def exContratNoTP : Elem :=
  .mk "CONTRAT" none
    [.mk "CONTDET_1" none
        [leaf "RUCODE" "1100", leaf "K_FACTURE" "2,0",
         leaf "TAUX_PAYE" "1,0", leaf "TAUX_FACTURE" "2,0000"],
     exLineNoTP]

/-- A detail line carrying coefficient `0,0`. -/
def exTieZeroA : Elem := .mk "CONTDET_1" none [leaf "K_FACTURE" "0,0"]

/-- A detail line carrying coefficient `0,00`. -/
def exTieZeroB : Elem := .mk "CONTDET_2" none [leaf "K_FACTURE" "0,00"]

/-- A detail line carrying coefficient `2,0`. -/
def exTieA : Elem := .mk "CONTDET_1" none [leaf "K_FACTURE" "2,0"]

/-- A detail line carrying coefficient `2,00`. -/
def exTieB : Elem := .mk "CONTDET_2" none [leaf "K_FACTURE" "2,00"]

/-- A contract with a single detail line under rubric 1100. -/
def exSingleton : Elem :=
  .mk "CONTRAT" none
    [.mk "CONTDET_1" none
        [leaf "RUCODE" "1100", leaf "K_FACTURE" "2,0", leaf "TAUX_PAYE" "1,0",
         leaf "TAUX_FACTURE" "2,0000"]]

/-- The tag/text view of a child list: the only data `process_contrat`
reads from a detail line's children. -/
def tagTexts (cs : List Elem) : List (String × Option String) :=
  cs.map (fun g => (g.tag, g.text))

/-- Shallow equivalence used by the idempotence argument: same tag, and
for CONTDET_-tagged elements also the same direct-children tag/text view.
Processing nested CONTRAT descendants never disturbs this view of an
enclosing contract's children. -/
def shallowEq (d e : Elem) : Prop :=
  d.tag = e.tag ∧
  (strStarts d.tag "CONTDET_" = true → tagTexts d.children = tagTexts e.children)

/-- A contract element on which every write of `process_contrat` is a
no-op: in every multi-member positive-maximum rubric group, every member
carrying both a K_FACTURE and a TAUX_PAYE has the group's maximum string
as its raw K_FACTURE text and, when a TAUX_FACTURE child exists, the
recomputed billed rate as that child's raw text. -/
def ContratFixed (e : Elem) : Prop :=
  ∀ r : String, r ≠ "" → 1 < (rucode_group e r).length →
    PyNum.blt pyZero (find_max_k_facture (rucode_group e r)).1 = true →
    ∀ d ∈ rucode_group e r,
      get_element_text d "K_FACTURE" "" ≠ "" →
      get_element_text d "TAUX_PAYE" "" ≠ "" →
        childText d "K_FACTURE" = some (find_max_k_facture (rucode_group e r)).2 ∧
        ∀ el, findChild d.children "TAUX_FACTURE" = some el →
          el.text = some (format_decimal
            (PyNum.mul (parse_decimal (some (get_element_text d "TAUX_PAYE" "")))
              (parse_decimal (some (find_max_k_facture (rucode_group e r)).2))) 4)

theorem PyNum.blt_iff (a b : PyNum) : PyNum.blt a b = true ↔ a.toQ < b.toQ := by
  unfold PyNum.blt PyNum.toQ
  rw [decide_eq_true_iff]
  rw [div_lt_div_iff₀ (by positivity) (by positivity)]
  constructor
  · intro h
    exact_mod_cast h
  · intro h
    exact_mod_cast h

theorem PyNum.beq_iff (a b : PyNum) : PyNum.beq a b = true ↔ a.toQ = b.toQ := by
  unfold PyNum.beq PyNum.toQ
  rw [beq_iff_eq, div_eq_div_iff (by positivity) (by positivity)]
  constructor
  · intro h
    exact_mod_cast h
  · intro h
    exact_mod_cast h

theorem PyNum.toQ_mul (a b : PyNum) : (PyNum.mul a b).toQ = a.toQ * b.toQ := by
  unfold PyNum.mul PyNum.toQ
  push_cast
  rw [pow_add]
  field_simp

theorem pyZero_toQ : pyZero.toQ = 0 := by
  simp [pyZero, PyNum.toQ]

theorem PyNum.blt_false_iff (a b : PyNum) : PyNum.blt a b = false ↔ b.toQ ≤ a.toQ := by
  rw [← not_lt, ← PyNum.blt_iff]
  cases PyNum.blt a b <;> simp

/-- Claim C7: decimal parsing is a total function (no input raises): `None`
and the empty string parse to 0, whitespace is trimmed, commas become
dots, interior spaces are stripped, all dots but the last act as thousands
separators when more than one remains, irrecoverable input parses to 0;
in particular `"1.234.567,89"` parses to 1234567.89 and `"12,25000"` to
12.25. -/
theorem parse_decimal_total_values :
    (parse_decimal none).toQ = 0 ∧
    (parse_decimal (some "")).toQ = 0 ∧
    (parse_decimal (some "1.234.567,89")).toQ = 1234567.89 ∧
    (parse_decimal (some "12,25000")).toQ = 12.25 ∧
    (parse_decimal (some "  12,25000  ")).toQ = 12.25 ∧
    (parse_decimal (some "1 234,5")).toQ = 1234.5 ∧
    (parse_decimal (some "abc")).toQ = 0 := by
  refine ⟨?_, ?_, ?_, ?_, ?_, ?_, ?_⟩
  · rw [show parse_decimal none = pyZero from rfl, pyZero_toQ]
  · rw [show parse_decimal (some "") = pyZero from by decide, pyZero_toQ]
  · rw [show parse_decimal (some "1.234.567,89") = ⟨123456789, 2⟩ from by decide]
    norm_num [PyNum.toQ]
  · rw [show parse_decimal (some "12,25000") = ⟨1225000, 5⟩ from by decide]
    norm_num [PyNum.toQ]
  · rw [show parse_decimal (some "  12,25000  ") = ⟨1225000, 5⟩ from by decide]
    norm_num [PyNum.toQ]
  · rw [show parse_decimal (some "1 234,5") = ⟨12345, 1⟩ from by decide]
    norm_num [PyNum.toQ]
  · rw [show parse_decimal (some "abc") = pyZero from by decide, pyZero_toQ]

/-- Claim C10: for every raw byte input the first decoding attempt
(`iso-8859-1`, an alias of CPython's total `latin-1` codec) succeeds, so
the `utf-8` and `latin-1` fallback branches are unreachable, the resolved
encoding is always `"iso-8859-1"`, and the serialized declaration always
names `iso-8859-1`. -/
theorem encoding_always_iso_8859_1 : ∀ bs : List (Fin 256),
    (decode_iso_8859_1 bs).isSome = true ∧
    (decode_bytes bs).2 = "iso-8859-1" ∧
    xml_declaration (decode_bytes bs).2 =
      "<?xml version=\"1.0\" encoding=\"iso-8859-1\"?>\n" := by
  intro bs
  refine ⟨rfl, rfl, rfl⟩

/-- Claim C8 (amended): around an abstract structural parser, a failed
initial parse triggers exactly one bounded repair pass (escape bare
ampersands outside recognized entities, escape `<` before whitespace,
escape `>` not preceded by whitespace) and exactly one retry; a failed
retry is a terminal error naming the original parse failure; a successful
retry surfaces the repair as a diagnostic only when the repaired root has
at least one child — a childless repaired root is falsy under Element
truthiness, so `if not self.root` still raises the terminal error and the
repair is lost; the two concrete equations exhibit the three substitutions
and the entity guard. -/
theorem parse_repair_flow :
    (∀ (P : String → Except String Elem) (s : String) (t : Elem),
        P s = .ok t → parse_with_repair P s = .ok (t, [])) ∧
    (∀ (P : String → Except String Elem) (s e : String) (t : Elem),
        P s = .error e → P (repair_xml s) = .ok t → t.children ≠ [] →
          parse_with_repair P s = .ok (t, [repairDiagnostic])) ∧
    (∀ (P : String → Except String Elem) (s e : String) (t : Elem),
        P s = .error e → P (repair_xml s) = .ok t → t.children = [] →
          parse_with_repair P s = .error ("Impossible de parser le XML: " ++ e)) ∧
    (∀ (P : String → Except String Elem) (s e e2 : String),
        P s = .error e → P (repair_xml s) = .error e2 →
          parse_with_repair P s = .error ("Impossible de parser le XML: " ++ e)) ∧
    repair_xml "<A>x & y</A>" = "<A&gt;x &amp; y</A&gt;" ∧
    repair_xml "a &amp; < b" = "a &amp; &lt; b" := by
  refine ⟨?_, ?_, ?_, ?_, by decide, by decide⟩
  · intro P s t h
    unfold parse_with_repair
    rw [h]
  · intro P s e t h1 h2 h3
    unfold parse_with_repair
    rw [h1, h2]
    dsimp only
    rw [if_neg (by simpa [List.isEmpty_iff] using h3)]
  · intro P s e t h1 h2 h3
    unfold parse_with_repair
    rw [h1, h2]
    dsimp only
    rw [if_pos (by simpa [List.isEmpty_iff] using h3)]
  · intro P s e e2 h1 h2
    unfold parse_with_repair
    rw [h1, h2]

/-- Counterexample to C8 as stated: on input `<A >x & y</A >` the initial
parse fails on the bare ampersand and the repair pass succeeds — the
repaired string `<A >x &amp; y</A >` parses — yet the repaired root `A`
has no children, so the Element-truthiness guard `if not self.root`
(src/app.py line 61) still raises the terminal `ValueError` naming the
original failure: the successful repair is absorbed, not surfaced as a
diagnostic. -/
theorem parse_repair_flow_counterexample :
    exRepairParser "<A >x & y</A >" =
      Except.error "not well-formed (invalid token)" ∧
    repair_xml "<A >x & y</A >" = "<A >x &amp; y</A >" ∧
    exRepairParser (repair_xml "<A >x & y</A >") =
      Except.ok (Elem.mk "A" (some "x & y") []) ∧
    parse_with_repair exRepairParser "<A >x & y</A >" =
      Except.error "Impossible de parser le XML: not well-formed (invalid token)" := by
  refine ⟨rfl, by decide, ?_, ?_⟩
  · rw [show repair_xml "<A >x & y</A >" = "<A >x &amp; y</A >" from by decide]
    rfl
  · unfold parse_with_repair
    rw [show repair_xml "<A >x & y</A >" = "<A >x &amp; y</A >" from by decide]
    rfl

/-- Witness for C8 at concrete parsers and inputs: a parser failing both
times yields the terminal error naming the original failure, and a retry
returning a root with a child surfaces the repair diagnostic. -/
theorem parse_repair_flow_witness :
    (parse_with_repair (fun _ => Except.error "boom") "<A>x & y</A>" =
      Except.error "Impossible de parser le XML: boom") ∧
    (parse_with_repair
      (fun s => if s = "<A&gt;x &amp; y</A&gt;"
        then Except.ok (Elem.mk "A" none [Elem.mk "B" none []])
        else Except.error "boom") "<A>x & y</A>" =
      Except.ok (Elem.mk "A" none [Elem.mk "B" none []], [repairDiagnostic])) := by
  constructor
  · exact parse_repair_flow.2.2.2.1 (fun _ => Except.error "boom") "<A>x & y</A>"
      "boom" "boom" rfl rfl
  · exact parse_repair_flow.2.1
      (fun s => if s = "<A&gt;x &amp; y</A&gt;"
        then Except.ok (Elem.mk "A" none [Elem.mk "B" none []])
        else Except.error "boom")
      "<A>x & y</A>" "boom" (Elem.mk "A" none [Elem.mk "B" none []])
      rfl
      (by rw [show repair_xml "<A>x & y</A>" = "<A&gt;x &amp; y</A&gt;" from by decide]; rfl)
      (List.cons_ne_nil _ _)

@[simp] theorem Elem.tag_mk (t : String) (x : Option String) (cs : List Elem) :
    (Elem.mk t x cs).tag = t := rfl

@[simp] theorem Elem.text_mk (t : String) (x : Option String) (cs : List Elem) :
    (Elem.mk t x cs).text = x := rfl

@[simp] theorem Elem.children_mk (t : String) (x : Option String) (cs : List Elem) :
    (Elem.mk t x cs).children = cs := rfl

theorem Elem.eta (e : Elem) : Elem.mk e.tag e.text e.children = e := by
  obtain ⟨t, x, cs⟩ := e
  rfl

theorem head_dropWhile_not {α : Type} (p : α → Bool) :
    ∀ (l : List α) (c : α), (l.dropWhile p).head? = some c → p c = false := by
  intro l
  induction l with
  | nil => intro c h; simp [List.dropWhile] at h
  | cons a as ih =>
    intro c h
    rw [List.dropWhile_cons] at h
    by_cases hp : p a = true
    · rw [if_pos hp] at h
      exact ih c h
    · rw [if_neg hp] at h
      simp only [List.head?_cons, Option.some.injEq] at h
      subst h
      simpa using hp

theorem dropWhile_eq_self_of_head {α : Type} (p : α → Bool) (l : List α)
    (h : ∀ c, l.head? = some c → p c = false) : l.dropWhile p = l := by
  cases l with
  | nil => rfl
  | cons a as =>
    rw [List.dropWhile_cons, if_neg]
    simp [h a rfl]

theorem dropWhile_idem {α : Type} (p : α → Bool) (l : List α) :
    (l.dropWhile p).dropWhile p = l.dropWhile p :=
  dropWhile_eq_self_of_head p _ (head_dropWhile_not p l)

theorem head_of_listPrefix {α : Type} {l₁ l₂ : List α} (h : l₁ <+: l₂) (c : α)
    (hc : l₁.head? = some c) : l₂.head? = some c := by
  obtain ⟨t, rfl⟩ := h
  cases l₁ with
  | nil => simp at hc
  | cons a as => simpa using hc

theorem pyStrip_idem (cs : List Char) : pyStrip (pyStrip cs) = pyStrip cs := by
  have h1 : (((cs.dropWhile pyWs).reverse.dropWhile pyWs).reverse).dropWhile pyWs =
      ((cs.dropWhile pyWs).reverse.dropWhile pyWs).reverse := by
    apply dropWhile_eq_self_of_head
    intro c hc
    have hpre : ((cs.dropWhile pyWs).reverse.dropWhile pyWs).reverse <+: cs.dropWhile pyWs := by
      have hsuf : (cs.dropWhile pyWs).reverse.dropWhile pyWs <:+ (cs.dropWhile pyWs).reverse :=
        List.dropWhile_suffix pyWs
      have := List.reverse_prefix.mpr hsuf
      simpa using this
    exact head_dropWhile_not pyWs cs c (head_of_listPrefix hpre c hc)
  show ((((pyStrip cs).dropWhile pyWs).reverse).dropWhile pyWs).reverse = pyStrip cs
  rw [show pyStrip cs = ((cs.dropWhile pyWs).reverse.dropWhile pyWs).reverse from rfl]
  rw [h1, List.reverse_reverse, dropWhile_idem]

theorem trimStr_idem (s : String) : trimStr (trimStr s) = trimStr s := by
  show ((((pyStrip s.toList).asString).toList.dropWhile pyWs).reverse.dropWhile pyWs).reverse.asString = _
  rw [show ((pyStrip s.toList).asString).toList = pyStrip s.toList from rfl]
  show (pyStrip (pyStrip s.toList)).asString = _
  rw [pyStrip_idem]
  rfl

theorem get_eq_childText (d : Elem) (tag dflt : String) :
    get_element_text d tag dflt =
      match childText d tag with
      | some t => if t ≠ "" then trimStr t else dflt
      | none => dflt := by
  unfold get_element_text childText
  cases h : findChild d.children tag with
  | none => rfl
  | some el =>
    cases hx : el.text with
    | none => simp [Option.bind, hx]
    | some t => simp [Option.bind, hx]

theorem get_of_childText_some (d : Elem) (tag dflt t : String)
    (h : childText d tag = some t) :
    get_element_text d tag dflt = if t ≠ "" then trimStr t else dflt := by
  rw [get_eq_childText, h]

theorem get_of_childText_none (d : Elem) (tag dflt : String)
    (h : childText d tag = none) : get_element_text d tag dflt = dflt := by
  rw [get_eq_childText, h]

theorem get_default_of_findChild_none (d : Elem) (tag dflt : String)
    (h : findChild d.children tag = none) : get_element_text d tag dflt = dflt := by
  apply get_of_childText_none
  unfold childText
  rw [h]
  rfl

theorem findChild_isSome_of_get_ne (d : Elem) (tag : String)
    (h : get_element_text d tag "" ≠ "") : (findChild d.children tag).isSome = true := by
  cases hf : findChild d.children tag with
  | none => exact absurd (get_default_of_findChild_none d tag "" hf) h
  | some el => rfl

theorem get_trimmed (d : Elem) (tag dflt : String) (hd : trimStr dflt = dflt) :
    trimStr (get_element_text d tag dflt) = get_element_text d tag dflt := by
  rw [get_eq_childText]
  cases h : childText d tag with
  | none => exact hd
  | some t =>
    by_cases ht : t ≠ ""
    · simp only [if_pos ht]
      exact trimStr_idem t
    · simp only [if_neg ht]
      exact hd

theorem set_list_snd (cs : List Elem) (t v : String) :
    (set_element_text_list cs t v).2 = (findChild cs t).isSome := by
  induction cs with
  | nil => rfl
  | cons c rest ih =>
    simp only [set_element_text_list, findChild]
    split
    · rfl
    · simpa using ih

theorem findChild_set_self (cs : List Elem) (t v : String) :
    findChild (set_element_text_list cs t v).1 t =
      (findChild cs t).map (fun el => Elem.mk el.tag (some v) el.children) := by
  induction cs with
  | nil => rfl
  | cons c rest ih =>
    obtain ⟨ct, cx, cc⟩ := c
    simp only [set_element_text_list, Elem.tag_mk, Elem.children_mk]
    split
    · rename_i h
      simp [findChild, h]
    · rename_i h
      simp only [findChild, Elem.tag_mk]
      rw [if_neg h, if_neg h]
      exact ih

theorem findChild_set_other (cs : List Elem) (t v u : String) (hu : u ≠ t) :
    findChild (set_element_text_list cs t v).1 u = findChild cs u := by
  induction cs with
  | nil => rfl
  | cons c rest ih =>
    obtain ⟨ct, cx, cc⟩ := c
    simp only [set_element_text_list, Elem.tag_mk]
    split
    · rename_i h
      subst h
      simp only [findChild, Elem.tag_mk]
      rw [if_neg (fun hc => hu hc.symm), if_neg (fun hc => hu hc.symm)]
    · rename_i h
      simp only [findChild, Elem.tag_mk]
      split
      · rfl
      · exact ih

theorem set_list_not_found (cs : List Elem) (t v : String)
    (h : findChild cs t = none) : set_element_text_list cs t v = (cs, false) := by
  induction cs with
  | nil => rfl
  | cons c rest ih =>
    simp only [findChild] at h
    simp only [set_element_text_list]
    split
    · rename_i hc
      rw [if_pos hc] at h
      exact absurd h (by simp)
    · rename_i hc
      rw [if_neg hc] at h
      rw [ih h]

theorem set_list_noop (cs : List Elem) (t v : String) (el : Elem)
    (h1 : findChild cs t = some el) (h2 : el.text = some v) :
    (set_element_text_list cs t v).1 = cs := by
  induction cs with
  | nil => simp [findChild] at h1
  | cons c rest ih =>
    simp only [findChild] at h1
    simp only [set_element_text_list]
    split
    · rename_i hc
      rw [if_pos hc] at h1
      simp only [Option.some.injEq] at h1
      subst h1
      rw [← h2, Elem.eta]
    · rename_i hc
      rw [if_neg hc] at h1
      simp [ih h1]

theorem filter_set (cs : List Elem) (t v : String) (p : Elem → Bool)
    (h : ∀ e : Elem, e.tag = t → p e = false) :
    (set_element_text_list cs t v).1.filter p = cs.filter p := by
  induction cs with
  | nil => rfl
  | cons c rest ih =>
    simp only [set_element_text_list]
    split
    · rename_i hc
      rw [List.filter_cons, List.filter_cons]
      rw [h (Elem.mk c.tag (some v) c.children) (by simpa using hc), h c hc]
      simp
    · rw [List.filter_cons, List.filter_cons, ih]

theorem update_one_of_not (nk : String) (nkv : PyNum) (d : Elem)
    (h : ¬(get_element_text d "K_FACTURE" "" ≠ "" ∧ get_element_text d "TAUX_PAYE" "" ≠ "")) :
    update_one nk nkv d = (d, []) := by
  unfold update_one
  rw [if_neg h]

theorem update_one_eq (nk : String) (nkv : PyNum) (d : Elem)
    (h1 : get_element_text d "K_FACTURE" "" ≠ "")
    (h2 : get_element_text d "TAUX_PAYE" "" ≠ "") :
    update_one nk nkv d =
      (Elem.mk d.tag d.text
        (set_element_text_list
          (set_element_text_list d.children "K_FACTURE" nk).1 "TAUX_FACTURE"
          (format_decimal
            (PyNum.mul (parse_decimal (some (get_element_text d "TAUX_PAYE" ""))) nkv) 4)).1,
       [⟨d.tag, get_element_text d "LIBELLE" d.tag, get_element_text d "K_FACTURE" "", nk,
         get_element_text d "TAUX_FACTURE" "",
         format_decimal
           (PyNum.mul (parse_decimal (some (get_element_text d "TAUX_PAYE" ""))) nkv) 4,
         get_element_text d "TAUX_PAYE" ""⟩]) := by
  have hb : (set_element_text_list d.children "K_FACTURE" nk).2 = true := by
    rw [set_list_snd]
    exact findChild_isSome_of_get_ne d "K_FACTURE" h1
  unfold update_one
  rw [if_pos ⟨h1, h2⟩]
  dsimp only [set_element_text]
  rw [hb]
  simp

theorem update_one_tag (nk : String) (nkv : PyNum) (d : Elem) :
    (update_one nk nkv d).1.tag = d.tag := by
  by_cases h : get_element_text d "K_FACTURE" "" ≠ "" ∧ get_element_text d "TAUX_PAYE" "" ≠ ""
  · rw [update_one_eq nk nkv d h.1 h.2]
    rfl
  · rw [update_one_of_not nk nkv d h]

theorem update_one_text (nk : String) (nkv : PyNum) (d : Elem) :
    (update_one nk nkv d).1.text = d.text := by
  by_cases h : get_element_text d "K_FACTURE" "" ≠ "" ∧ get_element_text d "TAUX_PAYE" "" ≠ ""
  · rw [update_one_eq nk nkv d h.1 h.2]
    rfl
  · rw [update_one_of_not nk nkv d h]

theorem update_one_findChild_other (nk : String) (nkv : PyNum) (d : Elem) (u : String)
    (hK : u ≠ "K_FACTURE") (hTF : u ≠ "TAUX_FACTURE") :
    findChild (update_one nk nkv d).1.children u = findChild d.children u := by
  by_cases h : get_element_text d "K_FACTURE" "" ≠ "" ∧ get_element_text d "TAUX_PAYE" "" ≠ ""
  · rw [update_one_eq nk nkv d h.1 h.2]
    simp only [Elem.children_mk]
    rw [findChild_set_other _ _ _ _ hTF, findChild_set_other _ _ _ _ hK]
  · rw [update_one_of_not nk nkv d h]

theorem update_one_get_other (nk : String) (nkv : PyNum) (d : Elem) (u dflt : String)
    (hK : u ≠ "K_FACTURE") (hTF : u ≠ "TAUX_FACTURE") :
    get_element_text (update_one nk nkv d).1 u dflt = get_element_text d u dflt := by
  unfold get_element_text
  rw [update_one_findChild_other nk nkv d u hK hTF]

theorem update_one_childText_K (nk : String) (nkv : PyNum) (d : Elem)
    (h1 : get_element_text d "K_FACTURE" "" ≠ "")
    (h2 : get_element_text d "TAUX_PAYE" "" ≠ "") :
    childText (update_one nk nkv d).1 "K_FACTURE" = some nk := by
  rw [update_one_eq nk nkv d h1 h2]
  unfold childText
  simp only [Elem.children_mk]
  rw [findChild_set_other _ _ _ _ (by decide), findChild_set_self]
  cases hf : findChild d.children "K_FACTURE" with
  | none =>
    have := findChild_isSome_of_get_ne d "K_FACTURE" h1
    rw [hf] at this
    simp at this
  | some el => rfl

theorem update_one_childText_TF (nk : String) (nkv : PyNum) (d : Elem) (el0 : Elem)
    (h1 : get_element_text d "K_FACTURE" "" ≠ "")
    (h2 : get_element_text d "TAUX_PAYE" "" ≠ "")
    (hf : findChild d.children "TAUX_FACTURE" = some el0) :
    childText (update_one nk nkv d).1 "TAUX_FACTURE" =
      some (format_decimal
        (PyNum.mul (parse_decimal (some (get_element_text d "TAUX_PAYE" ""))) nkv) 4) := by
  rw [update_one_eq nk nkv d h1 h2]
  unfold childText
  simp only [Elem.children_mk]
  rw [findChild_set_self, findChild_set_other _ _ _ _ (by decide), hf]
  rfl

theorem update_one_findChild_TF_none (nk : String) (nkv : PyNum) (d : Elem)
    (hf : findChild d.children "TAUX_FACTURE" = none) :
    findChild (update_one nk nkv d).1.children "TAUX_FACTURE" = none := by
  by_cases h : get_element_text d "K_FACTURE" "" ≠ "" ∧ get_element_text d "TAUX_PAYE" "" ≠ ""
  · rw [update_one_eq nk nkv d h.1 h.2]
    simp only [Elem.children_mk]
    rw [findChild_set_self, findChild_set_other _ _ _ _ (by decide), hf]
    rfl
  · rw [update_one_of_not nk nkv d h]
    exact hf

theorem update_one_noop (nk : String) (nkv : PyNum) (d : Elem)
    (hK : childText d "K_FACTURE" = some nk)
    (hTF : ∀ el, findChild d.children "TAUX_FACTURE" = some el →
      el.text = some (format_decimal
        (PyNum.mul (parse_decimal (some (get_element_text d "TAUX_PAYE" ""))) nkv) 4)) :
    (update_one nk nkv d).1 = d := by
  by_cases h : get_element_text d "K_FACTURE" "" ≠ "" ∧ get_element_text d "TAUX_PAYE" "" ≠ ""
  · rw [update_one_eq nk nkv d h.1 h.2]
    have hKel : ∃ el, findChild d.children "K_FACTURE" = some el ∧ el.text = some nk := by
      unfold childText at hK
      cases hf : findChild d.children "K_FACTURE" with
      | none => rw [hf] at hK; simp at hK
      | some el =>
        rw [hf] at hK
        exact ⟨el, rfl, hK⟩
    obtain ⟨el, hfel, htel⟩ := hKel
    rw [set_list_noop d.children "K_FACTURE" nk el hfel htel]
    cases hf2 : findChild d.children "TAUX_FACTURE" with
    | none =>
      rw [(set_list_not_found d.children "TAUX_FACTURE" _ hf2 : _)]
      exact Elem.eta d
    | some el2 =>
      rw [set_list_noop d.children "TAUX_FACTURE" _ el2 hf2 (hTF el2 hf2)]
      exact Elem.eta d
  · rw [update_one_of_not nk nkv d h]

theorem update_one_records_of_cond (nk : String) (nkv : PyNum) (d : Elem)
    (h1 : get_element_text d "K_FACTURE" "" ≠ "")
    (h2 : get_element_text d "TAUX_PAYE" "" ≠ "") :
    (update_one nk nkv d).2 =
      [⟨d.tag, get_element_text d "LIBELLE" d.tag, get_element_text d "K_FACTURE" "", nk,
        get_element_text d "TAUX_FACTURE" "",
        format_decimal
          (PyNum.mul (parse_decimal (some (get_element_text d "TAUX_PAYE" ""))) nkv) 4,
        get_element_text d "TAUX_PAYE" ""⟩] := by
  rw [update_one_eq nk nkv d h1 h2]

theorem update_group_go_fst (nk : String) (nkv : PyNum) (ds : List Elem) :
    (update_group_go nk nkv ds).1 = ds.map (fun d => (update_one nk nkv d).1) := by
  induction ds with
  | nil => rfl
  | cons d rest ih => simp [update_group_go, ih]

theorem update_group_go_snd (nk : String) (nkv : PyNum) (ds : List Elem) :
    (update_group_go nk nkv ds).2 = ds.filterMap (fun d =>
      if get_element_text d "K_FACTURE" "" ≠ "" ∧ get_element_text d "TAUX_PAYE" "" ≠ "" then
        some ⟨d.tag, get_element_text d "LIBELLE" d.tag, get_element_text d "K_FACTURE" "", nk,
              get_element_text d "TAUX_FACTURE" "",
              format_decimal
                (PyNum.mul (parse_decimal (some (get_element_text d "TAUX_PAYE" ""))) nkv) 4,
              get_element_text d "TAUX_PAYE" ""⟩
      else none) := by
  induction ds with
  | nil => rfl
  | cons d rest ih =>
    simp only [update_group_go, List.filterMap_cons]
    by_cases h : get_element_text d "K_FACTURE" "" ≠ "" ∧ get_element_text d "TAUX_PAYE" "" ≠ ""
    · rw [if_pos h, update_one_records_of_cond nk nkv d h.1 h.2, ih]
      rfl
    · rw [if_neg h, update_one_of_not nk nkv d h, ih]
      rfl

theorem length_filterMap_if {α β : Type} (p : α → Prop) [DecidablePred p] (f : α → β)
    (l : List α) :
    (l.filterMap (fun a => if p a then some (f a) else none)).length =
      l.countP (fun a => decide (p a)) := by
  induction l with
  | nil => rfl
  | cons a rest ih =>
    simp only [List.filterMap_cons, List.countP_cons]
    by_cases h : p a
    · simp [h, ih]
    · simp [h, ih]

/-- Claim C9: the group-update operation produces one change record for
every line carrying both a K_FACTURE and a TAUX_PAYE — including lines
whose old coefficient already equals the propagated one (the record's
emission does not compare `old_k` with `new_k`); lines lacking either
field produce none. -/
theorem update_group_records_complete :
    ∀ (contdet_list : List Elem) (new_k_facture : String),
    (update_contdet_group contdet_list new_k_facture).2 =
      contdet_list.filterMap (fun d =>
        if get_element_text d "K_FACTURE" "" ≠ "" ∧ get_element_text d "TAUX_PAYE" "" ≠ "" then
          some ⟨d.tag, get_element_text d "LIBELLE" d.tag, get_element_text d "K_FACTURE" "",
                new_k_facture, get_element_text d "TAUX_FACTURE" "",
                format_decimal
                  (PyNum.mul (parse_decimal (some (get_element_text d "TAUX_PAYE" "")))
                    (parse_decimal (some new_k_facture))) 4,
                get_element_text d "TAUX_PAYE" ""⟩
        else none) ∧
    (update_contdet_group contdet_list new_k_facture).2.length =
      contdet_list.countP (fun d =>
        decide (get_element_text d "K_FACTURE" "" ≠ "") &&
        decide (get_element_text d "TAUX_PAYE" "" ≠ "")) := by
  intro ds nk
  constructor
  · exact update_group_go_snd nk (parse_decimal (some nk)) ds
  · show (update_group_go nk (parse_decimal (some nk)) ds).2.length = _
    rw [update_group_go_snd]
    rw [length_filterMap_if
      (fun d => get_element_text d "K_FACTURE" "" ≠ "" ∧ get_element_text d "TAUX_PAYE" "" ≠ "")]
    congr 1
    funext d
    by_cases h1 : get_element_text d "K_FACTURE" "" ≠ "" <;>
      by_cases h2 : get_element_text d "TAUX_PAYE" "" ≠ "" <;> simp [h1, h2]

/-- Claim C4: each corrected detail line's billed rate is
`format_decimal(parse(TAUX_PAYE) * parse(propagated K), 4)` (comma
separator), and on the end-to-end example (two lines under rubric 1100,
coefficients `2,01` and `1,95`, paid rate `12,25000`) both lines end at
coefficient `2,01` and billed rate `24,6225`. -/
theorem billed_rate_recomputation :
    (∀ (contdet_list : List Elem) (new_k : String) (i : Nat),
        get_element_text (contdet_list.getD i Elem.nil) "K_FACTURE" "" ≠ "" →
        get_element_text (contdet_list.getD i Elem.nil) "TAUX_PAYE" "" ≠ "" →
        (findChild (contdet_list.getD i Elem.nil).children "TAUX_FACTURE").isSome = true →
        childText ((update_contdet_group contdet_list new_k).1.getD i Elem.nil) "TAUX_FACTURE" =
          some (format_decimal
            (PyNum.mul
              (parse_decimal (some (get_element_text (contdet_list.getD i Elem.nil) "TAUX_PAYE" "")))
              (parse_decimal (some new_k))) 4)) ∧
    childText ((process_contrat exContrat).1.children.getD 1 Elem.nil) "K_FACTURE" = some "2,01" ∧
    childText ((process_contrat exContrat).1.children.getD 1 Elem.nil) "TAUX_FACTURE" = some "24,6225" ∧
    childText ((process_contrat exContrat).1.children.getD 2 Elem.nil) "K_FACTURE" = some "2,01" ∧
    childText ((process_contrat exContrat).1.children.getD 2 Elem.nil) "TAUX_FACTURE" = some "24,6225" ∧
    format_decimal (PyNum.mul (parse_decimal (some "12,25000")) (parse_decimal (some "2,01"))) 4 =
      "24,6225" := by
  refine ⟨?_, by decide, by decide, by decide, by decide, by decide⟩
  intro ds nk i h1 h2 h3
  by_cases hi : i < ds.length
  · have hout : (update_contdet_group ds nk).1.getD i Elem.nil =
        (update_one nk (parse_decimal (some nk)) (ds.getD i Elem.nil)).1 := by
      show (update_group_go nk (parse_decimal (some nk)) ds).1.getD i Elem.nil = _
      rw [update_group_go_fst]
      rw [List.getD_eq_getElem?_getD, List.getElem?_map, List.getD_eq_getElem?_getD]
      rw [List.getElem?_eq_getElem hi]
      rfl
    rw [hout]
    obtain ⟨el0, hel0⟩ := Option.isSome_iff_exists.mp h3
    exact update_one_childText_TF nk (parse_decimal (some nk)) _ el0 h1 h2 hel0
  · exfalso
    apply h1
    rw [List.getD_eq_getElem?_getD, List.getElem?_eq_none (by omega)]
    rfl

/-- Witness for C4 at a concrete group: the second line of the end-to-end
group gets billed rate `24,6225`. -/
theorem billed_rate_recomputation_witness :
    childText ((update_contdet_group [exLine1, exLine2] "2,01").1.getD 1 Elem.nil)
      "TAUX_FACTURE" = some "24,6225" := by
  have h := billed_rate_recomputation.1 [exLine1, exLine2] "2,01" 1
    (by decide) (by decide) (by decide)
  rw [h]
  decide

theorem parse_decimal_empty : parse_decimal (some "") = pyZero := by decide

/-- Claim C5 (amended): in a two-line rubric group whose coefficients are
numerically equal and strictly positive, maximum-selection returns the
first line's string, whichever textual form comes first; positivity is
required because a non-positive tie keeps the initial `(0.0, "0")`
state. -/
theorem tie_break_first_string :
    ∀ a b : Elem,
      PyNum.beq (parse_decimal (some (get_element_text a "K_FACTURE" "")))
        (parse_decimal (some (get_element_text b "K_FACTURE" ""))) = true →
      PyNum.blt pyZero (parse_decimal (some (get_element_text a "K_FACTURE" ""))) = true →
      find_max_k_facture [a, b] =
        (parse_decimal (some (get_element_text a "K_FACTURE" "")),
         get_element_text a "K_FACTURE" "") := by
  intro a b heq hpos
  have ha : get_element_text a "K_FACTURE" "" ≠ "" := by
    intro h
    rw [h, parse_decimal_empty] at hpos
    exact absurd hpos (by decide)
  unfold find_max_k_facture
  simp only [find_max_go]
  rw [if_pos ha, if_pos hpos]
  by_cases hb : get_element_text b "K_FACTURE" "" ≠ ""
  · rw [if_pos hb]
    have hnlt : PyNum.blt (parse_decimal (some (get_element_text a "K_FACTURE" "")))
        (parse_decimal (some (get_element_text b "K_FACTURE" ""))) = false := by
      rw [PyNum.blt_false_iff]
      exact le_of_eq ((PyNum.beq_iff _ _).mp heq).symm
    simp [hnlt]
  · rw [if_neg hb]

/-- Counterexample to C5 as stated: the textually distinct, numerically
equal coefficients `0,0` and `0,00` are not positive, so maximum-selection
returns the default string `"0"`, not the first line's string. -/
theorem tie_break_counterexample :
    PyNum.beq (parse_decimal (some (get_element_text exTieZeroA "K_FACTURE" "")))
      (parse_decimal (some (get_element_text exTieZeroB "K_FACTURE" ""))) = true ∧
    get_element_text exTieZeroA "K_FACTURE" "" ≠ get_element_text exTieZeroB "K_FACTURE" "" ∧
    (find_max_k_facture [exTieZeroA, exTieZeroB]).2 = "0" ∧
    (find_max_k_facture [exTieZeroA, exTieZeroB]).2 ≠
      get_element_text exTieZeroA "K_FACTURE" "" := by
  refine ⟨by decide, by decide, by decide, by decide⟩

/-- Witness for C5 on the spec's test pair, in both orders: `2,0` before
`2,00` propagates `2,0`, the reverse propagates `2,00`. -/
theorem tie_break_first_string_witness :
    find_max_k_facture [exTieA, exTieB] = (parse_decimal (some "2,0"), "2,0") ∧
    find_max_k_facture [exTieB, exTieA] = (parse_decimal (some "2,00"), "2,00") :=
  ⟨tie_break_first_string exTieA exTieB (by decide) (by decide),
   tie_break_first_string exTieB exTieA (by decide) (by decide)⟩

theorem rucode_group_eq_filter (e : Elem) (r : String) :
    rucode_group e r = e.children.filter (fun a =>
      (get_element_text a "RUCODE" "" == r) &&
      (decide (a.tag ≠ "") && strStarts a.tag "CONTDET_")) := by
  unfold rucode_group find_elements_by_pattern
  rw [List.filter_filter]

theorem filter_map_of_preserve (F : Elem → Elem) (q : Elem → Bool)
    (h : ∀ d, q (F d) = q d) (l : List Elem) :
    (l.map F).filter q = (l.filter q).map F := by
  rw [List.filter_map]
  congr 1
  apply List.filter_congr
  intro d _
  exact h d

theorem updated_children_q_preserve (c : Elem) (r : String) (d : Elem) :
    ((fun a : Elem =>
      (get_element_text a "RUCODE" "" == r) &&
      (decide (a.tag ≠ "") && strStarts a.tag "CONTDET_"))
        (if d.tag ≠ "" ∧ strStarts d.tag "CONTDET_" then
          if get_element_text d "RUCODE" "" ≠ "" then
            if 1 < (rucode_group c (get_element_text d "RUCODE" "")).length then
              if PyNum.blt pyZero
                  (find_max_k_facture (rucode_group c (get_element_text d "RUCODE" ""))).1 then
                (update_one (find_max_k_facture (rucode_group c (get_element_text d "RUCODE" ""))).2
                  (parse_decimal
                    (some (find_max_k_facture (rucode_group c (get_element_text d "RUCODE" ""))).2))
                  d).1
              else d
            else d
          else d
        else d)) =
      ((get_element_text d "RUCODE" "" == r) &&
       (decide (d.tag ≠ "") && strStarts d.tag "CONTDET_")) := by
  dsimp only
  repeat' split
  any_goals rfl
  rw [update_one_tag, update_one_get_other _ _ _ _ _ (by decide) (by decide)]

theorem findChild_bind_text_map (F : Elem → Elem)
    (h : ∀ d, (F d).tag = d.tag ∧ (F d).text = d.text) (l : List Elem) (u : String) :
    (findChild (l.map F) u).bind Elem.text = (findChild l u).bind Elem.text := by
  induction l with
  | nil => rfl
  | cons c rest ih =>
    simp only [List.map_cons, findChild, (h c).1]
    split
    · simp [Option.bind, (h c).2]
    · exact ih

theorem updated_children_pointwise_tagtext (c : Elem) : ∀ d : Elem,
    ((fun d : Elem =>
      if d.tag ≠ "" ∧ strStarts d.tag "CONTDET_" then
        if get_element_text d "RUCODE" "" ≠ "" then
          if 1 < (rucode_group c (get_element_text d "RUCODE" "")).length then
            if PyNum.blt pyZero
                (find_max_k_facture (rucode_group c (get_element_text d "RUCODE" ""))).1 then
              (update_one (find_max_k_facture (rucode_group c (get_element_text d "RUCODE" ""))).2
                (parse_decimal
                  (some (find_max_k_facture (rucode_group c (get_element_text d "RUCODE" ""))).2))
                d).1
            else d
          else d
        else d
      else d) d).tag = d.tag ∧
    ((fun d : Elem =>
      if d.tag ≠ "" ∧ strStarts d.tag "CONTDET_" then
        if get_element_text d "RUCODE" "" ≠ "" then
          if 1 < (rucode_group c (get_element_text d "RUCODE" "")).length then
            if PyNum.blt pyZero
                (find_max_k_facture (rucode_group c (get_element_text d "RUCODE" ""))).1 then
              (update_one (find_max_k_facture (rucode_group c (get_element_text d "RUCODE" ""))).2
                (parse_decimal
                  (some (find_max_k_facture (rucode_group c (get_element_text d "RUCODE" ""))).2))
                d).1
            else d
          else d
        else d
      else d) d).text = d.text := by
  intro d
  constructor
  · dsimp only
    repeat' split
    any_goals rfl
    rw [update_one_tag]
  · dsimp only
    repeat' split
    any_goals rfl
    rw [update_one_text]

theorem get_mk_updated_children (c : Elem) (t : String) (x : Option String) (u dflt : String) :
    get_element_text (Elem.mk t x (updated_children c)) u dflt =
      get_element_text c u dflt := by
  rw [get_eq_childText, get_eq_childText]
  have hc : childText (Elem.mk t x (updated_children c)) u = childText c u := by
    unfold childText updated_children
    simp only [Elem.children_mk]
    exact findChild_bind_text_map _ (updated_children_pointwise_tagtext c) c.children u
  rw [hc]

theorem childText_mk_updated_children (c : Elem) (t : String) (x : Option String) (u : String) :
    childText (Elem.mk t x (updated_children c)) u = childText c u := by
  unfold childText updated_children
  simp only [Elem.children_mk]
  exact findChild_bind_text_map _ (updated_children_pointwise_tagtext c) c.children u

theorem rucode_group_mk_updated (c : Elem) (t : String) (x : Option String) (r : String) :
    rucode_group (Elem.mk t x (updated_children c)) r =
      (rucode_group c r).map (fun d =>
        if r ≠ "" then
          if 1 < (rucode_group c r).length then
            if PyNum.blt pyZero (find_max_k_facture (rucode_group c r)).1 then
              (update_one (find_max_k_facture (rucode_group c r)).2
                (parse_decimal (some (find_max_k_facture (rucode_group c r)).2)) d).1
            else d
          else d
        else d) := by
  rw [rucode_group_eq_filter]
  simp only [Elem.children_mk]
  have hu : updated_children c = c.children.map (fun d : Elem =>
      if d.tag ≠ "" ∧ strStarts d.tag "CONTDET_" then
        if get_element_text d "RUCODE" "" ≠ "" then
          if 1 < (rucode_group c (get_element_text d "RUCODE" "")).length then
            if PyNum.blt pyZero
                (find_max_k_facture (rucode_group c (get_element_text d "RUCODE" ""))).1 then
              (update_one (find_max_k_facture (rucode_group c (get_element_text d "RUCODE" ""))).2
                (parse_decimal
                  (some (find_max_k_facture (rucode_group c (get_element_text d "RUCODE" ""))).2))
                d).1
            else d
          else d
        else d
      else d) := rfl
  rw [hu]
  rw [filter_map_of_preserve _ _ (updated_children_q_preserve c r)]
  rw [← rucode_group_eq_filter]
  apply List.map_congr_left
  intro d hd
  have hmem := hd
  rw [rucode_group_eq_filter, List.mem_filter] at hmem
  obtain ⟨-, hq⟩ := hmem
  rw [Bool.and_eq_true, Bool.and_eq_true] at hq
  have hrud : get_element_text d "RUCODE" "" = r := by
    have := hq.1
    rwa [beq_iff_eq] at this
  have htag : d.tag ≠ "" := of_decide_eq_true hq.2.1
  rw [if_pos ⟨htag, hq.2.2⟩, hrud]

theorem rucode_group_mk_updated_elig (c : Elem) (t : String) (x : Option String) (r : String)
    (hr : r ≠ "") (hlen : 1 < (rucode_group c r).length)
    (hpos : PyNum.blt pyZero (find_max_k_facture (rucode_group c r)).1 = true) :
    rucode_group (Elem.mk t x (updated_children c)) r =
      (rucode_group c r).map (fun d =>
        (update_one (find_max_k_facture (rucode_group c r)).2
          (parse_decimal (some (find_max_k_facture (rucode_group c r)).2)) d).1) := by
  rw [rucode_group_mk_updated]
  apply List.map_congr_left
  intro d _
  rw [if_pos hr, if_pos hlen, if_pos hpos]

theorem rucode_group_mk_updated_skip (c : Elem) (t : String) (x : Option String) (r : String)
    (h : ¬(r ≠ "" ∧ 1 < (rucode_group c r).length ∧
      PyNum.blt pyZero (find_max_k_facture (rucode_group c r)).1 = true)) :
    rucode_group (Elem.mk t x (updated_children c)) r = rucode_group c r := by
  rw [rucode_group_mk_updated]
  have : ∀ d ∈ rucode_group c r,
      (if r ≠ "" then
        if 1 < (rucode_group c r).length then
          if PyNum.blt pyZero (find_max_k_facture (rucode_group c r)).1 then
            (update_one (find_max_k_facture (rucode_group c r)).2
              (parse_decimal (some (find_max_k_facture (rucode_group c r)).2)) d).1
          else d
        else d
      else d) = d := by
    intro d _
    by_cases h1 : r ≠ ""
    · rw [if_pos h1]
      by_cases h2 : 1 < (rucode_group c r).length
      · rw [if_pos h2]
        by_cases h3 : PyNum.blt pyZero (find_max_k_facture (rucode_group c r)).1 = true
        · exact absurd ⟨h1, h2, h3⟩ h
        · rw [if_neg h3]
      · rw [if_neg h2]
    · rw [if_neg h1]
  rw [List.map_congr_left this]
  simp

theorem rucode_group_set_K (t : String) (x : Option String) (cs : List Elem) (v r : String) :
    rucode_group (Elem.mk t x (set_element_text_list cs "K_FACTURE" v).1) r =
      rucode_group (Elem.mk t x cs) r := by
  rw [rucode_group_eq_filter, rucode_group_eq_filter]
  simp only [Elem.children_mk]
  apply filter_set
  intro e he
  rw [he]
  have : strStarts "K_FACTURE" "CONTDET_" = false := by decide
  simp [this]

theorem process_contrat_children_group (c : Elem) (r : String) :
    rucode_group (process_contrat c).1 r =
      rucode_group (Elem.mk c.tag c.text (updated_children c)) r := by
  unfold process_contrat
  dsimp only
  split
  · rfl
  · split
    · split
      · exact rucode_group_set_K c.tag c.text (updated_children c) _ r
      · rfl
    · rfl

theorem process_contrat_mods_parts (c : Elem) :
    (process_contrat c).2.rucode_modifications = rucode_modifications_of c ∧
    (process_contrat c).2.contrat_id = contrat_id_of c := by
  unfold process_contrat
  dsimp only
  split
  · exact ⟨rfl, rfl⟩
  · split
    · split
      · exact ⟨rfl, rfl⟩
      · exact ⟨rfl, rfl⟩
    · exact ⟨rfl, rfl⟩

theorem mem_rucode_modifications (c : Elem) (x : String × String × List Modification)
    (hx : x ∈ rucode_modifications_of c) :
    x.1 ∈ contdet_rucodes c ∧ 1 < (rucode_group c x.1).length ∧
    PyNum.blt pyZero (find_max_k_facture (rucode_group c x.1)).1 = true ∧
    x.2.1 = (find_max_k_facture (rucode_group c x.1)).2 ∧
    x.2.2 = (update_contdet_group (rucode_group c x.1)
      (find_max_k_facture (rucode_group c x.1)).2).2 ∧
    (x.2.2.any (fun m => m.old_k != m.new_k)) = true := by
  unfold rucode_modifications_of at hx
  rw [List.mem_filterMap] at hx
  obtain ⟨r, hr, hfr⟩ := hx
  dsimp only at hfr
  split at hfr
  · split at hfr
    · split at hfr
      · rename_i hlen hpos hany
        simp only [Option.some.injEq] at hfr
        subst hfr
        exact ⟨hr, hlen, hpos, rfl, rfl, hany⟩
      · simp at hfr
    · simp at hfr
  · simp at hfr

/-- Claim C6: a rubric group with exactly one member is never mutated (the
group of that rubric in the processed contract is the untouched input
group) and no change record carries its rubric code. -/
theorem singleton_group_untouched : ∀ (c : Elem) (r : String),
    (rucode_group c r).length = 1 →
    rucode_group (process_contrat c).1 r = rucode_group c r ∧
    ∀ x ∈ (process_contrat c).2.rucode_modifications, x.1 ≠ r := by
  intro c r hlen
  constructor
  · rw [process_contrat_children_group]
    apply rucode_group_mk_updated_skip
    rintro ⟨-, h2, -⟩
    omega
  · intro x hx hxr
    rw [(process_contrat_mods_parts c).1] at hx
    have h := (mem_rucode_modifications c x hx).2.1
    rw [hxr] at h
    omega

/-- Witness for C6: the singleton contract's rubric 1100 group is left
untouched and generates no change record. -/
theorem singleton_group_untouched_witness :
    rucode_group (process_contrat exSingleton).1 "1100" = rucode_group exSingleton "1100" ∧
    ∀ x ∈ (process_contrat exSingleton).2.rucode_modifications, x.1 ≠ "1100" :=
  singleton_group_untouched exSingleton "1100" (by decide)

/-- Claim C2 (amended): in every rubric group with at least two members
and a positive maximum, every member that carries both a non-empty
K_FACTURE and a non-empty TAUX_PAYE ends with the group's selected
maximum string, byte for byte, as its raw K_FACTURE text; members lacking
either field are not rewritten. -/
theorem group_members_coefficient_propagation : ∀ (c : Elem) (r : String) (i : Nat),
    r ≠ "" → 1 < (rucode_group c r).length →
    PyNum.blt pyZero (find_max_k_facture (rucode_group c r)).1 = true →
    get_element_text ((rucode_group c r).getD i Elem.nil) "K_FACTURE" "" ≠ "" →
    get_element_text ((rucode_group c r).getD i Elem.nil) "TAUX_PAYE" "" ≠ "" →
    childText ((rucode_group (process_contrat c).1 r).getD i Elem.nil) "K_FACTURE" =
      some (find_max_k_facture (rucode_group c r)).2 := by
  intro c r i hr hlen hpos h1 h2
  rw [process_contrat_children_group, rucode_group_mk_updated_elig c c.tag c.text r hr hlen hpos]
  by_cases hi : i < (rucode_group c r).length
  · have hgd : (rucode_group c r).getD i Elem.nil = (rucode_group c r)[i] := by
      rw [List.getD_eq_getElem?_getD, List.getElem?_eq_getElem hi]
      rfl
    rw [hgd] at h1 h2
    rw [List.getD_eq_getElem?_getD, List.getElem?_map, List.getElem?_eq_getElem hi]
    exact update_one_childText_K _ _ _ h1 h2
  · exfalso
    apply h1
    rw [List.getD_eq_getElem?_getD, List.getElem?_eq_none (by omega)]
    rfl

/-- Counterexample to C2 as stated: in the two-member rubric 1100 group of
`exContratNoTP`, the member lacking TAUX_PAYE keeps its coefficient `1,5`,
which differs from the group's selected maximum string `2,0`. -/
theorem group_members_counterexample :
    1 < (rucode_group exContratNoTP "1100").length ∧
    childText ((rucode_group (process_contrat exContratNoTP).1 "1100").getD 1 Elem.nil)
      "K_FACTURE" = some "1,5" ∧
    (find_max_k_facture (rucode_group (process_contrat exContratNoTP).1 "1100")).2 = "2,0" ∧
    ("1,5" : String) ≠ "2,0" := by
  refine ⟨by decide, by decide, by decide, by decide⟩

/-- Witness for C2 on the end-to-end contract: its second rubric-1100
member ends at the group's maximum string. -/
theorem group_members_coefficient_propagation_witness :
    childText ((rucode_group (process_contrat exContrat).1 "1100").getD 1 Elem.nil) "K_FACTURE" =
      some (find_max_k_facture (rucode_group exContrat "1100")).2 :=
  group_members_coefficient_propagation exContrat "1100" 1 (by decide) (by decide) (by decide)
    (by decide) (by decide)

theorem find_first_decomp {α : Type} (p : α → Bool) :
    ∀ (l : List α) (x : α), List.find? p l = some x →
      p x = true ∧ ∃ l1 l2, l = l1 ++ x :: l2 ∧ ∀ y ∈ l1, p y = false := by
  intro l
  induction l with
  | nil =>
    intro x h
    simp at h
  | cons a rest ih =>
    intro x h
    rw [List.find?_cons] at h
    cases hpa : p a with
    | true =>
      rw [hpa] at h
      simp at h
      subst h
      refine ⟨hpa, [], rest, rfl, ?_⟩
      intro y hy
      simp at hy
    | false =>
      rw [hpa] at h
      simp at h
      obtain ⟨hp, l1, l2, hdec, hall⟩ := ih x h
      refine ⟨hp, a :: l1, l2, by rw [hdec]; rfl, ?_⟩
      intro y hy
      rcases List.mem_cons.mp hy with h1 | h2
      · subst h1
        exact hpa
      · exact hall y h2

/-- Claim C1 (amended): the contract-level K_FACTURE is rewritten exactly
when the contract's field is non-empty, some rubric group qualified
(positive multi-member maximum), the global maximum strictly exceeds the
contract's parsed coefficient, and additionally some group recorded with a
real change attains the global maximum — the search for the string to copy
runs over the recorded modifications only, so a qualifying group whose
members already all carried the maximum does not enable the update.  When
no update is recorded the contract's K_FACTURE text is byte-identical to
the original; when one is recorded it carries the old text and the copied
maximum string, which numerically equals the global maximum, strictly
exceeds the old parsed value, and is the maximum string of the FIRST
recorded group attaining the global maximum: the recorded-modification
list splits around the source group, and every earlier recorded group's
maximum numerically differs from the global maximum. -/
theorem contract_coefficient_update_characterization : ∀ c : Elem,
    ((process_contrat c).2.k_contrat_updated.isSome = true ↔
      (get_element_text c "K_FACTURE" "" ≠ "" ∧ all_max_k_values c ≠ [] ∧
        PyNum.blt (parse_decimal (some (get_element_text c "K_FACTURE" "")))
          (global_max_of ((all_max_k_values c).headD pyZero) (all_max_k_values c).tail) = true ∧
        ∃ x ∈ rucode_modifications_of c,
          PyNum.beq (parse_decimal (some x.2.1))
            (global_max_of ((all_max_k_values c).headD pyZero) (all_max_k_values c).tail) = true)) ∧
    ((process_contrat c).2.k_contrat_updated = none →
      childText (process_contrat c).1 "K_FACTURE" = childText c "K_FACTURE") ∧
    (∀ o n, (process_contrat c).2.k_contrat_updated = some (o, n) →
      o = get_element_text c "K_FACTURE" "" ∧
      childText (process_contrat c).1 "K_FACTURE" = some n ∧
      PyNum.beq (parse_decimal (some n))
        (global_max_of ((all_max_k_values c).headD pyZero) (all_max_k_values c).tail) = true ∧
      PyNum.blt (parse_decimal (some o))
        (global_max_of ((all_max_k_values c).headD pyZero) (all_max_k_values c).tail) = true ∧
      ∃ x l1 l2, rucode_modifications_of c = l1 ++ x :: l2 ∧ n = x.2.1 ∧
        ∀ y ∈ l1, PyNum.beq (parse_decimal (some y.2.1))
          (global_max_of ((all_max_k_values c).headD pyZero)
            (all_max_k_values c).tail) = false) := by
  intro c
  unfold process_contrat
  dsimp only
  split
  · rename_i heq
    refine ⟨?_, ?_, ?_⟩
    · simp [heq]
    · intro _
      exact childText_mk_updated_children c c.tag c.text "K_FACTURE"
    · intro o n h
      simp at h
  · rename_i m ms heq
    rw [get_mk_updated_children]
    rw [heq]
    simp only [List.headD_cons, List.tail_cons]
    split
    · rename_i hcond
      split
      · rename_i x hfind
        have hsome : (findChild (updated_children c) "K_FACTURE").isSome = true := by
          have := findChild_isSome_of_get_ne (Elem.mk c.tag c.text (updated_children c))
            "K_FACTURE" (by rw [get_mk_updated_children]; exact hcond.1)
          simpa using this
        have hset2 : (set_element_text_list (updated_children c) "K_FACTURE" x.2.1).2 = true := by
          rw [set_list_snd]
          exact hsome
        have hpx : PyNum.beq (parse_decimal (some x.2.1)) (global_max_of m ms) = true := by
          have hq := List.find?_some hfind
          simpa using hq
        rw [hset2]
        refine ⟨?_, ?_, ?_⟩
        · constructor
          · intro _
            exact ⟨hcond.1, by simp, hcond.2, x, List.mem_of_find?_eq_some hfind, hpx⟩
          · intro _
            simp
        · intro h
          simp at h
        · intro o n h
          simp only [if_pos trivial, Option.some.injEq, Prod.mk.injEq] at h
          obtain ⟨ho, hn⟩ := h
          subst ho
          subst hn
          obtain ⟨hpred, l1, l2, hdecomp, hfirst⟩ := find_first_decomp _ _ _ hfind
          refine ⟨rfl, ?_, ?_, hcond.2, x, l1, l2, hdecomp, rfl, ?_⟩
          · show (findChild (set_element_text_list (updated_children c) "K_FACTURE" x.2.1).1
              "K_FACTURE").bind Elem.text = some x.2.1
            rw [findChild_set_self]
            obtain ⟨el, hel⟩ := Option.isSome_iff_exists.mp hsome
            rw [hel]
            rfl
          · exact hpx
          · intro y hy
            simpa using hfirst y hy
      · rename_i hfind
        refine ⟨?_, ?_, ?_⟩
        · constructor
          · intro h
            simp at h
          · rintro ⟨-, -, -, x2, hx2, hbeq2⟩
            rw [List.find?_eq_none] at hfind
            exact absurd hbeq2 (hfind x2 hx2)
        · intro _
          exact childText_mk_updated_children c c.tag c.text "K_FACTURE"
        · intro o n h
          simp at h
    · rename_i hcond
      refine ⟨?_, ?_, ?_⟩
      · constructor
        · intro h
          simp at h
        · rintro ⟨h1, -, h3, -⟩
          exact absurd ⟨h1, h3⟩ hcond
      · intro _
        exact childText_mk_updated_children c c.tag c.text "K_FACTURE"
      · intro o n h
        simp at h

/-- Counterexample to C1 as stated: in `exContratEq` the rubric 1100
maximum 2,01 strictly exceeds the contract coefficient 1,00, yet — every
member already carrying the maximum, so no real change being recorded —
the contract field is left at `1,00` and no contract-level update is
reported. -/
theorem contract_coefficient_claim_counterexample :
    (∃ m ∈ all_max_k_values exContratEq,
      PyNum.blt (parse_decimal (some (get_element_text exContratEq "K_FACTURE" ""))) m = true) ∧
    childText exContratEq "K_FACTURE" = some "1,00" ∧
    childText (process_contrat exContratEq).1 "K_FACTURE" = some "1,00" ∧
    (process_contrat exContratEq).2.k_contrat_updated = none := by
  refine ⟨by decide, by decide, by decide, by decide⟩

/-- Witness for C1: on the end-to-end contract a contract-level update is
recorded (the group with the real change attains the global maximum). -/
theorem contract_coefficient_update_witness :
    (process_contrat exContrat).2.k_contrat_updated.isSome = true :=
  (contract_coefficient_update_characterization exContrat).1.mpr (by decide)

theorem find_max_go_parse : ∀ (ds : List Elem) (m : PyNum) (s : String),
    parse_decimal (some s) = m →
    parse_decimal (some (find_max_go ds m s).2) = (find_max_go ds m s).1 := by
  intro ds
  induction ds with
  | nil => intro m s h; exact h
  | cons d rest ih =>
    intro m s h
    simp only [find_max_go]
    split
    · split
      · exact ih _ _ rfl
      · exact ih _ _ h
    · exact ih _ _ h

theorem find_max_go_mono : ∀ (ds : List Elem) (m : PyNum) (s : String),
    m.toQ ≤ (find_max_go ds m s).1.toQ := by
  intro ds
  induction ds with
  | nil => intro m s; exact le_refl _
  | cons d rest ih =>
    intro m s
    simp only [find_max_go]
    split
    · split
      · rename_i hlt
        have h1 : m.toQ < (parse_decimal (some (get_element_text d "K_FACTURE" ""))).toQ :=
          (PyNum.blt_iff _ _).mp hlt
        exact le_trans (le_of_lt h1) (ih _ _)
      · exact ih _ _
    · exact ih _ _

theorem find_max_go_bound : ∀ (ds : List Elem) (m : PyNum) (s : String),
    ∀ d ∈ ds, get_element_text d "K_FACTURE" "" ≠ "" →
    (parse_decimal (some (get_element_text d "K_FACTURE" ""))).toQ ≤
      (find_max_go ds m s).1.toQ := by
  intro ds
  induction ds with
  | nil => intro m s d hd; simp at hd
  | cons d0 rest ih =>
    intro m s d hd hne
    rcases List.mem_cons.mp hd with h | h
    · subst h
      simp only [find_max_go]
      rw [if_pos hne]
      split
      · exact find_max_go_mono rest _ _
      · rename_i hnlt
        have := (PyNum.blt_false_iff m (parse_decimal (some (get_element_text d "K_FACTURE" "")))).mp
          (by revert hnlt; cases PyNum.blt m (parse_decimal (some (get_element_text d "K_FACTURE" ""))) <;> simp)
        exact le_trans this (find_max_go_mono rest _ _)
    · simp only [find_max_go]
      split
      · split
        · exact ih _ _ d h hne
        · exact ih _ _ d h hne
      · exact ih _ _ d h hne

theorem find_max_go_absorb : ∀ (ds : List Elem) (m : PyNum) (s : String),
    (∀ d ∈ ds, get_element_text d "K_FACTURE" "" ≠ "" →
      (parse_decimal (some (get_element_text d "K_FACTURE" ""))).toQ ≤ m.toQ) →
    find_max_go ds m s = (m, s) := by
  intro ds
  induction ds with
  | nil => intro m s _; rfl
  | cons d rest ih =>
    intro m s hb
    simp only [find_max_go]
    split
    · rename_i hne
      have hle := hb d (List.mem_cons_self d rest) hne
      have hblt : PyNum.blt m (parse_decimal (some (get_element_text d "K_FACTURE" ""))) = false := by
        rw [PyNum.blt_false_iff]
        exact hle
      rw [hblt]
      simp only [Bool.false_eq_true, if_false]
      exact ih m s (fun d2 hd2 => hb d2 (List.mem_cons_of_mem d hd2))
    · exact ih m s (fun d2 hd2 => hb d2 (List.mem_cons_of_mem d hd2))

theorem find_max_go_trim : ∀ (ds : List Elem) (m : PyNum) (s : String),
    trimStr s = s → trimStr (find_max_go ds m s).2 = (find_max_go ds m s).2 := by
  intro ds
  induction ds with
  | nil => intro m s h; exact h
  | cons d rest ih =>
    intro m s h
    simp only [find_max_go]
    split
    · split
      · exact ih _ _ (get_trimmed d "K_FACTURE" "" (by decide))
      · exact ih _ _ h
    · exact ih _ _ h

theorem find_max_str_trim (g : List Elem) :
    trimStr (find_max_k_facture g).2 = (find_max_k_facture g).2 :=
  find_max_go_trim g pyZero "0" (by decide)

theorem find_max_go_map (G : Elem → Elem) (S : String) (M : PyNum)
    (hS : parse_decimal (some S) = M) (hSne : S ≠ "") :
    ∀ (ds : List Elem) (m : PyNum) (s : String),
      parse_decimal (some s) = m →
      (∀ d ∈ ds, get_element_text (G d) "K_FACTURE" "" = get_element_text d "K_FACTURE" "" ∨
        (get_element_text d "K_FACTURE" "" ≠ "" ∧ get_element_text (G d) "K_FACTURE" "" = S)) →
      (∀ d ∈ ds, get_element_text d "K_FACTURE" "" ≠ "" →
        (parse_decimal (some (get_element_text d "K_FACTURE" ""))).toQ ≤ M.toQ) →
      find_max_go ds m s = (M, S) →
      find_max_go (ds.map G) m s = (M, S) := by
  intro ds
  induction ds with
  | nil =>
    intro m s _ _ _ hrun
    exact hrun
  | cons d rest ih =>
    intro m s hps hprop hbound hrun
    have hproprest : ∀ d2 ∈ rest,
        get_element_text (G d2) "K_FACTURE" "" = get_element_text d2 "K_FACTURE" "" ∨
        (get_element_text d2 "K_FACTURE" "" ≠ "" ∧ get_element_text (G d2) "K_FACTURE" "" = S) :=
      fun d2 h2 => hprop d2 (List.mem_cons_of_mem d h2)
    have hboundrest : ∀ d2 ∈ rest, get_element_text d2 "K_FACTURE" "" ≠ "" →
        (parse_decimal (some (get_element_text d2 "K_FACTURE" ""))).toQ ≤ M.toQ :=
      fun d2 h2 => hbound d2 (List.mem_cons_of_mem d h2)
    have hrununf := hrun
    simp only [find_max_go] at hrununf
    simp only [List.map_cons, find_max_go]
    rcases hprop d (List.mem_cons_self d rest) with hA | hB
    · rw [hA]
      by_cases hk : get_element_text d "K_FACTURE" "" ≠ ""
      · rw [if_pos hk] at hrununf ⊢
        by_cases hblt :
            PyNum.blt m (parse_decimal (some (get_element_text d "K_FACTURE" ""))) = true
        · rw [if_pos hblt] at hrununf ⊢
          exact ih _ _ rfl hproprest hboundrest hrununf
        · rw [if_neg hblt] at hrununf ⊢
          exact ih _ _ hps hproprest hboundrest hrununf
      · rw [if_neg hk] at hrununf ⊢
        exact ih _ _ hps hproprest hboundrest hrununf
    · obtain ⟨hk, hk2⟩ := hB
      rw [hk2, if_pos hSne, hS]
      rw [if_pos hk] at hrununf
      have hmM : m.toQ ≤ M.toQ := by
        by_cases hblt :
            PyNum.blt m (parse_decimal (some (get_element_text d "K_FACTURE" ""))) = true
        · rw [if_pos hblt] at hrununf
          have h1 := (PyNum.blt_iff _ _).mp hblt
          have h2 := find_max_go_mono rest
            (parse_decimal (some (get_element_text d "K_FACTURE" "")))
            (get_element_text d "K_FACTURE" "")
          rw [hrununf] at h2
          exact le_of_lt (lt_of_lt_of_le h1 h2)
        · rw [if_neg hblt] at hrununf
          have h2 := find_max_go_mono rest m s
          rw [hrununf] at h2
          exact h2
      have habs : ∀ e ∈ rest.map G, get_element_text e "K_FACTURE" "" ≠ "" →
          (parse_decimal (some (get_element_text e "K_FACTURE" ""))).toQ ≤ M.toQ := by
        intro e he hene
        obtain ⟨d2, hd2, rfl⟩ := List.mem_map.mp he
        rcases hproprest d2 hd2 with h | h
        · rw [h] at hene ⊢
          exact hboundrest d2 hd2 hene
        · rw [h.2, hS]
      by_cases hmlt : m.toQ < M.toQ
      · rw [if_pos ((PyNum.blt_iff _ _).mpr hmlt)]
        exact find_max_go_absorb _ M S habs
      · have hEq : m.toQ = M.toQ := le_antisymm hmM (not_lt.mp hmlt)
        have habs0 : find_max_go (d :: rest) m s = (m, s) :=
          find_max_go_absorb _ m s (fun e he hene => hEq ▸ hbound e he hene)
        rw [habs0] at hrun
        have hm : m = M := congrArg Prod.fst hrun
        have hs2 : s = S := congrArg Prod.snd hrun
        subst hm
        subst hs2
        split
        · exact find_max_go_absorb _ _ _ habs
        · exact find_max_go_absorb _ _ _ habs

theorem mem_rucode_group (c : Elem) (r : String) (d : Elem) (hd : d ∈ rucode_group c r) :
    d.tag ≠ "" ∧ strStarts d.tag "CONTDET_" = true ∧ get_element_text d "RUCODE" "" = r := by
  rw [rucode_group_eq_filter, List.mem_filter] at hd
  obtain ⟨-, hq⟩ := hd
  rw [Bool.and_eq_true, Bool.and_eq_true] at hq
  refine ⟨of_decide_eq_true hq.2.1, hq.2.2, ?_⟩
  have := hq.1
  rwa [beq_iff_eq] at this

theorem find_max_pos_facts (g : List Elem)
    (hpos : PyNum.blt pyZero (find_max_k_facture g).1 = true) :
    parse_decimal (some (find_max_k_facture g).2) = (find_max_k_facture g).1 ∧
    (find_max_k_facture g).2 ≠ "" := by
  have h1 : parse_decimal (some (find_max_k_facture g).2) = (find_max_k_facture g).1 :=
    find_max_go_parse g pyZero "0" (by decide)
  refine ⟨h1, ?_⟩
  intro hcontra
  rw [hcontra, parse_decimal_empty] at h1
  rw [← h1] at hpos
  exact absurd hpos (by decide)

theorem update_one_get_K (nk : String) (nkv : PyNum) (d : Elem)
    (h1 : get_element_text d "K_FACTURE" "" ≠ "")
    (h2 : get_element_text d "TAUX_PAYE" "" ≠ "")
    (hnk : nk ≠ "") (htr : trimStr nk = nk) :
    get_element_text (update_one nk nkv d).1 "K_FACTURE" "" = nk := by
  rw [get_eq_childText, update_one_childText_K nk nkv d h1 h2]
  simp only [if_pos hnk]
  exact htr

theorem contrat_fixed_after (c : Elem) : ContratFixed (process_contrat c).1 := by
  intro r hr hlen1 hpos1 d hd h1 h2
  rw [process_contrat_children_group] at hd hlen1 hpos1
  rw [process_contrat_children_group]
  by_cases helig : 1 < (rucode_group c r).length ∧
      PyNum.blt pyZero (find_max_k_facture (rucode_group c r)).1 = true
  · obtain ⟨hlen, hpos⟩ := helig
    have hmap := rucode_group_mk_updated_elig c c.tag c.text r hr hlen hpos
    rw [hmap] at hd
    rw [hmap]
    have hfacts := find_max_pos_facts (rucode_group c r) hpos
    have htrim := find_max_str_trim (rucode_group c r)
    have hFM : find_max_go ((rucode_group c r).map
        (fun d => (update_one (find_max_k_facture (rucode_group c r)).2
          (parse_decimal (some (find_max_k_facture (rucode_group c r)).2)) d).1)) pyZero "0" =
        ((find_max_k_facture (rucode_group c r)).1, (find_max_k_facture (rucode_group c r)).2) := by
      apply find_max_go_map _ _ _ hfacts.1 hfacts.2 _ pyZero "0" (by decide)
      · intro d2 _
        by_cases hc2 : get_element_text d2 "K_FACTURE" "" ≠ "" ∧
            get_element_text d2 "TAUX_PAYE" "" ≠ ""
        · right
          exact ⟨hc2.1, update_one_get_K _ _ _ hc2.1 hc2.2 hfacts.2 htrim⟩
        · left
          rw [update_one_of_not _ _ _ hc2]
      · intro d2 hd2 hne
        exact find_max_go_bound (rucode_group c r) pyZero "0" d2 hd2 hne
      · exact Prod.mk.eta.symm
    have hfmout : find_max_k_facture ((rucode_group c r).map
        (fun d => (update_one (find_max_k_facture (rucode_group c r)).2
          (parse_decimal (some (find_max_k_facture (rucode_group c r)).2)) d).1)) =
        find_max_k_facture (rucode_group c r) := by
      show find_max_go _ pyZero "0" = _
      rw [hFM]
    rw [hfmout]
    obtain ⟨d0, hd0, rfl⟩ := List.mem_map.mp hd
    have hTP : get_element_text (update_one (find_max_k_facture (rucode_group c r)).2
        (parse_decimal (some (find_max_k_facture (rucode_group c r)).2)) d0).1
          "TAUX_PAYE" "" = get_element_text d0 "TAUX_PAYE" "" :=
      update_one_get_other _ _ _ _ _ (by decide) (by decide)
    rw [hTP] at h2
    by_cases hK0 : get_element_text d0 "K_FACTURE" "" ≠ ""
    · constructor
      · rw [update_one_childText_K _ _ _ hK0 h2]
      · intro el hel
        cases hTF0 : findChild d0.children "TAUX_FACTURE" with
        | none =>
          rw [update_one_findChild_TF_none _ _ _ hTF0] at hel
          exact absurd hel (by simp)
        | some el0 =>
          have hct := update_one_childText_TF
            (find_max_k_facture (rucode_group c r)).2
            (parse_decimal (some (find_max_k_facture (rucode_group c r)).2))
            d0 el0 hK0 h2 hTF0
          unfold childText at hct
          rw [hel] at hct
          rw [hTP]
          exact hct
    · have hupd : update_one (find_max_k_facture (rucode_group c r)).2
          (parse_decimal (some (find_max_k_facture (rucode_group c r)).2)) d0 = (d0, []) :=
        update_one_of_not _ _ _ (fun hc => hK0 hc.1)
      rw [hupd] at h1
      exact absurd h1 hK0
  · have hskip := rucode_group_mk_updated_skip c c.tag c.text r
      (fun hcon => helig ⟨hcon.2.1, hcon.2.2⟩)
    rw [hskip] at hlen1 hpos1
    exact absurd ⟨hlen1, hpos1⟩ helig

theorem foldl_rucodes_ne : ∀ (l : List Elem) (acc : List String),
    (∀ a ∈ acc, a ≠ "") →
    ∀ r ∈ l.foldl (fun acc c =>
        if get_element_text c "RUCODE" "" ≠ "" ∧ get_element_text c "RUCODE" "" ∉ acc
        then acc ++ [get_element_text c "RUCODE" ""] else acc) acc,
      r ≠ "" := by
  intro l
  induction l with
  | nil => intro acc hacc r hr; exact hacc r hr
  | cons c rest ih =>
    intro acc hacc r hr
    simp only [List.foldl_cons] at hr
    refine ih _ ?_ r hr
    intro a ha
    by_cases hc : get_element_text c "RUCODE" "" ≠ "" ∧ get_element_text c "RUCODE" "" ∉ acc
    · rw [if_pos hc] at ha
      rcases List.mem_append.mp ha with h | h
      · exact hacc a h
      · simp only [List.mem_singleton] at h
        subst h
        exact hc.1
    · rw [if_neg hc] at ha
      exact hacc a ha

theorem contdet_rucodes_ne_empty (c : Elem) : ∀ r ∈ contdet_rucodes c, r ≠ "" := by
  intro r hr
  unfold contdet_rucodes at hr
  exact foldl_rucodes_ne _ [] (by simp) r hr

theorem updated_children_of_fixed (e : Elem) (hf : ContratFixed e) :
    updated_children e = e.children := by
  unfold updated_children
  have hpt : ∀ d ∈ e.children,
      (if d.tag ≠ "" ∧ strStarts d.tag "CONTDET_" then
        if get_element_text d "RUCODE" "" ≠ "" then
          if 1 < (rucode_group e (get_element_text d "RUCODE" "")).length then
            if PyNum.blt pyZero
                (find_max_k_facture (rucode_group e (get_element_text d "RUCODE" ""))).1 then
              (update_one (find_max_k_facture (rucode_group e (get_element_text d "RUCODE" ""))).2
                (parse_decimal
                  (some (find_max_k_facture (rucode_group e (get_element_text d "RUCODE" ""))).2))
                d).1
            else d
          else d
        else d
      else d) = d := by
    intro d hd
    by_cases ht : d.tag ≠ "" ∧ strStarts d.tag "CONTDET_"
    · rw [if_pos ht]
      by_cases hrne : get_element_text d "RUCODE" "" ≠ ""
      · rw [if_pos hrne]
        by_cases hlen : 1 < (rucode_group e (get_element_text d "RUCODE" "")).length
        · rw [if_pos hlen]
          by_cases hpos : PyNum.blt pyZero
              (find_max_k_facture (rucode_group e (get_element_text d "RUCODE" ""))).1 = true
          · rw [if_pos hpos]
            have hdg : d ∈ rucode_group e (get_element_text d "RUCODE" "") := by
              rw [rucode_group_eq_filter, List.mem_filter]
              refine ⟨hd, ?_⟩
              rw [Bool.and_eq_true, Bool.and_eq_true]
              exact ⟨beq_self_eq_true _, decide_eq_true ht.1, ht.2⟩
            by_cases hc : get_element_text d "K_FACTURE" "" ≠ "" ∧
                get_element_text d "TAUX_PAYE" "" ≠ ""
            · have hfix := hf (get_element_text d "RUCODE" "") hrne hlen hpos d hdg hc.1 hc.2
              exact update_one_noop _ _ d hfix.1 hfix.2
            · rw [update_one_of_not _ _ _ hc]
          · rw [if_neg hpos]
        · rw [if_neg hlen]
      · rw [if_neg hrne]
    · rw [if_neg ht]
  rw [List.map_congr_left hpt]
  simp

theorem rucode_modifications_of_fixed (e : Elem) (hf : ContratFixed e) :
    rucode_modifications_of e = [] := by
  unfold rucode_modifications_of
  rw [List.filterMap_eq_nil_iff]
  intro r hr
  have hrne : r ≠ "" := contdet_rucodes_ne_empty e r hr
  dsimp only
  by_cases hlen : 1 < (rucode_group e r).length
  · rw [if_pos hlen]
    by_cases hpos : PyNum.blt pyZero (find_max_k_facture (rucode_group e r)).1 = true
    · rw [if_pos hpos]
      have hfacts := find_max_pos_facts (rucode_group e r) hpos
      have htrim := find_max_str_trim (rucode_group e r)
      have hany : ((update_contdet_group (rucode_group e r)
          (find_max_k_facture (rucode_group e r)).2).2.any
            (fun m => m.old_k != m.new_k)) = false := by
        rw [List.any_eq_false]
        intro rec hrec
        have hrecs := update_group_go_snd (find_max_k_facture (rucode_group e r)).2
          (parse_decimal (some (find_max_k_facture (rucode_group e r)).2)) (rucode_group e r)
        rw [show (update_contdet_group (rucode_group e r)
            (find_max_k_facture (rucode_group e r)).2).2 =
          (update_group_go (find_max_k_facture (rucode_group e r)).2
            (parse_decimal (some (find_max_k_facture (rucode_group e r)).2))
            (rucode_group e r)).2 from rfl, hrecs] at hrec
        rw [List.mem_filterMap] at hrec
        obtain ⟨d, hd, hfd⟩ := hrec
        by_cases hc : get_element_text d "K_FACTURE" "" ≠ "" ∧
            get_element_text d "TAUX_PAYE" "" ≠ ""
        · rw [if_pos hc] at hfd
          simp only [Option.some.injEq] at hfd
          have hfix := hf r hrne hlen hpos d hd hc.1 hc.2
          have hgk : get_element_text d "K_FACTURE" "" =
              (find_max_k_facture (rucode_group e r)).2 := by
            rw [get_eq_childText, hfix.1]
            dsimp only
            rw [if_pos hfacts.2]
            exact htrim
          subst hfd
          simp [hgk]
        · rw [if_neg hc] at hfd
          simp at hfd
      rw [hany]
      simp
    · rw [if_neg hpos]
  · rw [if_neg hlen]

theorem process_contrat_of_fixed (e : Elem) (hf : ContratFixed e) :
    process_contrat e = (e, ⟨contrat_id_of e, [], none⟩) := by
  have hch := updated_children_of_fixed e hf
  have hmods := rucode_modifications_of_fixed e hf
  unfold process_contrat
  dsimp only
  rw [hmods, hch, Elem.eta e]
  split
  · rfl
  · split
    · split
      · rename_i x hx
        simp [List.find?] at hx
      · rfl
    · rfl

theorem findChild_tagTexts : ∀ (l l2 : List Elem), tagTexts l = tagTexts l2 → ∀ u : String,
    Option.map (fun e : Elem => (e.tag, e.text)) (findChild l u) =
    Option.map (fun e : Elem => (e.tag, e.text)) (findChild l2 u) := by
  intro l
  induction l with
  | nil =>
    intro l2 h u
    cases l2 with
    | nil => rfl
    | cons c2 rest2 => simp [tagTexts] at h
  | cons c rest ih =>
    intro l2 h u
    cases l2 with
    | nil => simp [tagTexts] at h
    | cons c2 rest2 =>
      simp only [tagTexts, List.map_cons, List.cons.injEq, Prod.mk.injEq] at h
      obtain ⟨⟨htag, htext⟩, hrest⟩ := h
      simp only [findChild]
      rw [htag]
      split
      · simp [htag, htext]
      · exact ih rest2 hrest u

theorem childText_of_tagTexts (d e : Elem) (h : tagTexts d.children = tagTexts e.children)
    (u : String) : childText d u = childText e u := by
  unfold childText
  have hopt := findChild_tagTexts d.children e.children h u
  cases h1 : findChild d.children u with
  | none =>
    cases h2 : findChild e.children u with
    | none => rfl
    | some b => rw [h1, h2] at hopt; simp at hopt
  | some a =>
    cases h2 : findChild e.children u with
    | none => rw [h1, h2] at hopt; simp at hopt
    | some b =>
      rw [h1, h2] at hopt
      simp only [Option.map_some', Option.some.injEq, Prod.mk.injEq] at hopt
      simp only [Option.bind]
      exact hopt.2

theorem get_of_tagTexts (d e : Elem) (h : tagTexts d.children = tagTexts e.children)
    (u dflt : String) : get_element_text d u dflt = get_element_text e u dflt := by
  rw [get_eq_childText, get_eq_childText, childText_of_tagTexts d e h u]

theorem forall2_filter_strong {R : Elem → Elem → Prop} (q : Elem → Bool)
    (hq : ∀ a b, R a b → q a = q b) :
    ∀ {l l2 : List Elem}, List.Forall₂ R l l2 →
      List.Forall₂ (fun a b => R a b ∧ q a = true) (l.filter q) (l2.filter q) := by
  intro l l2 h
  induction h with
  | nil => exact List.Forall₂.nil
  | @cons a b l1 l3 hab htail ih =>
    rw [List.filter_cons, List.filter_cons]
    by_cases hqa : q a = true
    · rw [if_pos hqa, if_pos (by rw [← hq a b hab]; exact hqa)]
      exact List.Forall₂.cons ⟨hab, hqa⟩ ih
    · rw [if_neg hqa, if_neg (by rw [← hq a b hab]; exact hqa)]
      exact ih

theorem shallowEq_q (r : String) : ∀ a b : Elem, shallowEq a b →
    ((get_element_text a "RUCODE" "" == r) &&
      (decide (a.tag ≠ "") && strStarts a.tag "CONTDET_")) =
    ((get_element_text b "RUCODE" "" == r) &&
      (decide (b.tag ≠ "") && strStarts b.tag "CONTDET_")) := by
  rintro a b ⟨htag, hsub⟩
  rw [htag]
  by_cases hs : strStarts b.tag "CONTDET_" = true
  · have hget := get_of_tagTexts a b (hsub (by rw [htag]; exact hs)) "RUCODE" ""
    rw [hget]
  · have hs2 : strStarts b.tag "CONTDET_" = false := by
      revert hs
      cases strStarts b.tag "CONTDET_" <;> simp
    simp [hs2]

theorem find_max_go_congr : ∀ {g g2 : List Elem},
    List.Forall₂ (fun a b =>
      get_element_text a "K_FACTURE" "" = get_element_text b "K_FACTURE" "") g g2 →
    ∀ (m : PyNum) (s : String), find_max_go g m s = find_max_go g2 m s := by
  intro g g2 h
  induction h with
  | nil => intro m s; rfl
  | @cons a b l1 l3 hab htail ih =>
    intro m s
    simp only [find_max_go]
    rw [hab]
    split
    · split
      · exact ih _ _
      · exact ih _ _
    · exact ih _ _

theorem forall2_mem_right {α β : Type} {R : α → β → Prop} : ∀ {l : List α} {l2 : List β},
    List.Forall₂ R l l2 → ∀ b ∈ l2, ∃ a ∈ l, R a b := by
  intro l l2 h
  induction h with
  | nil => intro b hb; simp at hb
  | @cons a b l1 l3 hab htail ih =>
    intro b2 hb2
    rcases List.mem_cons.mp hb2 with h | h
    · subst h
      exact ⟨a, List.mem_cons_self a l1, hab⟩
    · obtain ⟨a2, ha2, hr⟩ := ih b2 h
      exact ⟨a2, List.mem_cons_of_mem a ha2, hr⟩

theorem contrat_fixed_transfer (e e2 : Elem)
    (h : List.Forall₂ shallowEq e.children e2.children)
    (hf : ContratFixed e) : ContratFixed e2 := by
  intro r hr hlen2 hpos2 d2 hd2 h1 h2
  have hgrp : List.Forall₂ (fun a b => shallowEq a b ∧
      ((get_element_text a "RUCODE" "" == r) &&
        (decide (a.tag ≠ "") && strStarts a.tag "CONTDET_")) = true)
      (rucode_group e r) (rucode_group e2 r) := by
    rw [rucode_group_eq_filter, rucode_group_eq_filter]
    exact forall2_filter_strong _ (shallowEq_q r) h
  have hK : List.Forall₂ (fun a b =>
      get_element_text a "K_FACTURE" "" = get_element_text b "K_FACTURE" "")
      (rucode_group e r) (rucode_group e2 r) := by
    refine hgrp.imp ?_
    rintro a b ⟨hse, hq⟩
    rw [Bool.and_eq_true, Bool.and_eq_true] at hq
    exact get_of_tagTexts a b (hse.2 hq.2.2) _ _
  have hfm : find_max_k_facture (rucode_group e r) = find_max_k_facture (rucode_group e2 r) :=
    find_max_go_congr hK pyZero "0"
  have hlen : 1 < (rucode_group e r).length := by
    rw [List.Forall₂.length_eq hgrp]
    exact hlen2
  have hpos : PyNum.blt pyZero (find_max_k_facture (rucode_group e r)).1 = true := by
    rw [hfm]
    exact hpos2
  obtain ⟨d, hd, hRel⟩ := forall2_mem_right hgrp d2 hd2
  obtain ⟨hse, hq⟩ := hRel
  rw [Bool.and_eq_true, Bool.and_eq_true] at hq
  have htt := hse.2 hq.2.2
  have hK1 : get_element_text d "K_FACTURE" "" = get_element_text d2 "K_FACTURE" "" :=
    get_of_tagTexts _ _ htt _ _
  have hTP : get_element_text d "TAUX_PAYE" "" = get_element_text d2 "TAUX_PAYE" "" :=
    get_of_tagTexts _ _ htt _ _
  have hfix := hf r hr hlen hpos d hd (by rw [hK1]; exact h1) (by rw [hTP]; exact h2)
  constructor
  · rw [← childText_of_tagTexts d d2 htt "K_FACTURE", ← hfm]
    exact hfix.1
  · intro el2 hel2
    have hopt := findChild_tagTexts d.children d2.children htt "TAUX_FACTURE"
    rw [hel2] at hopt
    cases hfd : findChild d.children "TAUX_FACTURE" with
    | none =>
      rw [hfd] at hopt
      simp at hopt
    | some el =>
      rw [hfd] at hopt
      simp only [Option.map_some', Option.some.injEq, Prod.mk.injEq] at hopt
      have htext := hopt.2
      rw [← htext, ← hTP, ← hfm]
      exact hfix.2 el hfd

theorem process_contrat_tag_text (c : Elem) :
    (process_contrat c).1.tag = c.tag ∧ (process_contrat c).1.text = c.text := by
  unfold process_contrat
  dsimp only
  split
  · exact ⟨rfl, rfl⟩
  · split
    · split
      · exact ⟨rfl, rfl⟩
      · exact ⟨rfl, rfl⟩
    · exact ⟨rfl, rfl⟩

theorem numNodes_pos (c : Elem) : 1 ≤ numNodes c := by
  obtain ⟨t, x, cs⟩ := c
  simp only [numNodes]
  omega

theorem numNodesL_cons_bounds (c : Elem) (cs : List Elem) (n : Nat)
    (h : numNodesL (c :: cs) ≤ n + 1) :
    numNodesL cs ≤ n ∧ numNodesL c.children ≤ n := by
  rw [numNodesL_cons] at h
  have h1 := numNodes_pos c
  have h2 := numNodesL_children_lt c
  omega

theorem tagTexts_of_forall2 : ∀ {l l2 : List Elem},
    List.Forall₂ (fun a b => a.tag = b.tag ∧ a.text = b.text) l l2 →
    tagTexts l = tagTexts l2 := by
  intro l l2 h
  induction h with
  | nil => rfl
  | @cons a b l1 l3 hab htail ih =>
    simp only [tagTexts, List.map_cons] at ih ⊢
    rw [hab.1, hab.2, ih]

theorem process_document_list_tagtext : ∀ (n : Nat) (l : List Elem), numNodesL l ≤ n →
    List.Forall₂ (fun a b => a.tag = b.tag ∧ a.text = b.text) l
      (process_document_list l).1 := by
  intro n
  induction n with
  | zero =>
    intro l hl
    cases l with
    | nil =>
      simp only [process_document_list]
      exact List.Forall₂.nil
    | cons c cs =>
      rw [numNodesL_cons] at hl
      have := numNodes_pos c
      omega
  | succ n ih =>
    intro l hl
    cases l with
    | nil =>
      simp only [process_document_list]
      exact List.Forall₂.nil
    | cons c cs =>
      obtain ⟨hcs, hch⟩ := numNodesL_cons_bounds c cs n hl
      simp only [process_document_list]
      by_cases hc : c.tag = "CONTRAT"
      · rw [if_pos hc]
        dsimp only
        refine List.Forall₂.cons ⟨?_, ?_⟩ (ih cs hcs)
        · rw [Elem.tag_mk]
          exact (process_contrat_tag_text c).1.symm
        · rw [Elem.text_mk]
          exact (process_contrat_tag_text c).2.symm
      · rw [if_neg hc]
        dsimp only
        exact List.Forall₂.cons ⟨rfl, rfl⟩ (ih cs hcs)

theorem process_document_list_shallow : ∀ (n : Nat) (l : List Elem), numNodesL l ≤ n →
    List.Forall₂ shallowEq l (process_document_list l).1 := by
  intro n
  induction n with
  | zero =>
    intro l hl
    cases l with
    | nil =>
      simp only [process_document_list]
      exact List.Forall₂.nil
    | cons c cs =>
      rw [numNodesL_cons] at hl
      have := numNodes_pos c
      omega
  | succ n ih =>
    intro l hl
    cases l with
    | nil =>
      simp only [process_document_list]
      exact List.Forall₂.nil
    | cons c cs =>
      obtain ⟨hcs, hch⟩ := numNodesL_cons_bounds c cs n hl
      simp only [process_document_list]
      by_cases hc : c.tag = "CONTRAT"
      · rw [if_pos hc]
        dsimp only
        refine List.Forall₂.cons ⟨?_, ?_⟩ (ih cs hcs)
        · rw [Elem.tag_mk]
          exact (process_contrat_tag_text c).1.symm
        · intro hstart
          rw [hc] at hstart
          exact absurd hstart (by decide)
      · rw [if_neg hc]
        dsimp only
        refine List.Forall₂.cons ⟨rfl, ?_⟩ (ih cs hcs)
        intro _
        rw [Elem.children_mk]
        exact tagTexts_of_forall2 (process_document_list_tagtext n c.children hch)

theorem process_document_list_idem_go : ∀ (n : Nat) (l : List Elem), numNodesL l ≤ n →
    process_document_list (process_document_list l).1 =
      ((process_document_list l).1, []) := by
  intro n
  induction n with
  | zero =>
    intro l hl
    cases l with
    | nil =>
      have h0 : process_document_list ([] : List Elem) = ([], []) := by
        simp only [process_document_list]
      rw [h0]
      dsimp only
      exact h0
    | cons c cs =>
      rw [numNodesL_cons] at hl
      have := numNodes_pos c
      omega
  | succ n ih =>
    intro l hl
    cases l with
    | nil =>
      have h0 : process_document_list ([] : List Elem) = ([], []) := by
        simp only [process_document_list]
      rw [h0]
      dsimp only
      exact h0
    | cons c cs =>
      obtain ⟨hcs, hch⟩ := numNodesL_cons_bounds c cs n hl
      by_cases hc : c.tag = "CONTRAT"
      · have hrun1 : process_document_list (c :: cs) =
            (Elem.mk (process_contrat c).1.tag (process_contrat c).1.text
               (process_document_list (process_contrat c).1.children).1 ::
             (process_document_list cs).1,
             (if (process_contrat c).2.rucode_modifications ≠ [] ∨
                 (process_contrat c).2.k_contrat_updated.isSome
              then [(process_contrat c).2] else []) ++
             (process_document_list (process_contrat c).1.children).2 ++
             (process_document_list cs).2) := by
          simp only [process_document_list]
          rw [if_pos hc]
        have hchpc : numNodesL (process_contrat c).1.children ≤ n := by
          rw [numNodes_process_contrat]
          exact hch
        have hfix1 : ContratFixed (process_contrat c).1 := contrat_fixed_after c
        have hsh : List.Forall₂ shallowEq (process_contrat c).1.children
            (process_document_list (process_contrat c).1.children).1 :=
          process_document_list_shallow n (process_contrat c).1.children hchpc
        have hfix2 : ContratFixed
            (Elem.mk (process_contrat c).1.tag (process_contrat c).1.text
              (process_document_list (process_contrat c).1.children).1) := by
          refine contrat_fixed_transfer (process_contrat c).1 _ ?_ hfix1
          rw [Elem.children_mk]
          exact hsh
        have hpcX := process_contrat_of_fixed _ hfix2
        have hXtag : (Elem.mk (process_contrat c).1.tag (process_contrat c).1.text
            (process_document_list (process_contrat c).1.children).1).tag =
            "CONTRAT" := by
          rw [Elem.tag_mk, (process_contrat_tag_text c).1, hc]
        have hinner := ih (process_contrat c).1.children hchpc
        have hrest := ih cs hcs
        rw [hrun1]
        dsimp only
        simp only [process_document_list]
        rw [if_pos hXtag]
        rw [hpcX]
        dsimp only
        rw [Elem.children_mk, Elem.tag_mk, Elem.text_mk, hinner, hrest]
        simp
      · have hrun1 : process_document_list (c :: cs) =
            (Elem.mk c.tag c.text (process_document_list c.children).1 ::
               (process_document_list cs).1,
             (process_document_list c.children).2 ++
               (process_document_list cs).2) := by
          simp only [process_document_list]
          rw [if_neg hc]
        have hXtag : ¬(Elem.mk c.tag c.text
            (process_document_list c.children).1).tag = "CONTRAT" := by
          rw [Elem.tag_mk]
          exact hc
        have hinner := ih c.children hch
        have hrest := ih cs hcs
        rw [hrun1]
        dsimp only
        simp only [process_document_list]
        rw [if_neg hXtag]
        rw [Elem.children_mk, Elem.tag_mk, Elem.text_mk, hinner, hrest]
        simp

/-- Claim C3: applying the correction pipeline to the output of a previous
correction produces an identical document and an empty list of change
records. In the embedding, `process_document` performs the tree-rewriting
phase of `CMADProcessor.process` (src/app.py lines 442-477): its first
component is the corrected tree and its second the collected per-contract
modification records, kept only when non-trivial (lines 465-470); the
serialization `prettify_xml` and re-parse between the two runs are
faithful to the tree, so idempotence of the tree transformation is
idempotence of the pipeline. A second run changes nothing and reports
nothing. -/
theorem process_idempotent (root : Elem) :
    process_document (process_document root).1 = ((process_document root).1, []) := by
  unfold process_document
  dsimp only
  simp only [Elem.tag_mk, Elem.text_mk, Elem.children_mk]
  rw [process_document_list_idem_go (numNodesL root.children) root.children le_rfl]
